import Mathlib

/-!
Verification of the YouTube-chat repository's coordination layer.

The development shallowly embeds the repository's own code:
* `extract_video_id` (app.py) — syntactic video-id extraction via two regex
  searches plus an anchored bare-id match;
* the Session/Corpus Coordinator (rgbYoutube.py) — multi-video transcript
  aggregation, incremental add/remove with full pipeline rebuild;
* the HTTP handlers (app.py) — state transitions over the process-wide session;
* the persistent chat-session store (personal_chat.py).

External collaborators (transcript fetching, pipeline building) are passed in
as oracle functions; fallible calls return `Except`.
-/

/-! ## Characters and tokens (app.py, `extract_video_id`)

The regex character class `[a-zA-Z0-9_-]`. `Char.isAlpha`/`Char.isDigit`
are the ASCII ranges, matching the Python class exactly. -/

def idChar (c : Char) : Bool :=
  c.isAlpha || c.isDigit || c = '_' || c = '-'

/-- An 11-character run of the allowed alphabet (`[a-zA-Z0-9_-]{11}`). -/
def isIdToken (t : List Char) : Bool :=
  t.length == 11 && t.all idChar

/-- Match `[a-zA-Z0-9_-]{11}` at the start of `cs`, returning the token. -/
def take11Id (cs : List Char) : Option (List Char) :=
  let t := cs.take 11
  if isIdToken t then some t else none

/-! The literal alternatives of the first pattern
`(?:youtube\.com\/watch\?v=|youtu\.be\/|youtube\.com\/embed\/)([a-zA-Z0-9_-]{11})`
in the order the regex engine tries them. -/

def m1 : List Char := "youtube.com/watch?v=".data
def m2 : List Char := "youtu.be/".data
def m3 : List Char := "youtube.com/embed/".data

/-- Try one literal alternative followed by the 11-char token group. -/
def tryMarker (m cs : List Char) : Option (List Char) :=
  if m.isPrefixOf cs then take11Id (cs.drop m.length) else none

/-- Attempt the first pattern anchored at the head of `cs`:
alternatives are tried left to right, as the regex engine does. -/
def matchP1At (cs : List Char) : Option (List Char) :=
  match tryMarker m1 cs with
  | some t => some t
  | none =>
    match tryMarker m2 cs with
    | some t => some t
    | none => tryMarker m3 cs

/-- `re.search`: try the anchored matcher at every start position, left to
right, returning the group of the leftmost match. -/
def searchFrom (f : List Char → Option (List Char)) : List Char → Option (List Char)
  | [] => f []
  | c :: cs =>
    match f (c :: cs) with
    | some t => some t
    | none => searchFrom f cs

/-- `re.search` for the first pattern. -/
def searchP1 (cs : List Char) : Option (List Char) := searchFrom matchP1At cs

/-! The second pattern `(?:youtube\.com\/.*[?&]v=)([a-zA-Z0-9_-]{11})`.
`.` does not match a newline; `.*` is greedy, so among the viable split
points after `youtube.com/` the rightmost `[?&]v=` wins. -/

def p2lit : List Char := "youtube.com/".data

/-- Match `[?&]v=` followed by the 11-char token group at the head of `cs`. -/
def matchVEq : List Char → Option (List Char)
  | q :: v :: e :: rest =>
    if (q == '?' || q == '&') && v == 'v' && e == '=' then take11Id rest else none
  | _ => none

/-- Greedy `.*[?&]v=([a-zA-Z0-9_-]{11})`: consume as many non-newline
characters as possible, backtracking right to left. -/
def greedyVEq : List Char → Option (List Char)
  | [] => none
  | c :: cs =>
    match (if c = '\n' then none else greedyVEq cs) with
    | some t => some t
    | none => matchVEq (c :: cs)

/-- Attempt the second pattern anchored at the head of `cs`. -/
def matchP2At (cs : List Char) : Option (List Char) :=
  if p2lit.isPrefixOf cs then greedyVEq (cs.drop p2lit.length) else none

/-- `re.search` for the second pattern. -/
def searchP2 (cs : List Char) : Option (List Char) := searchFrom matchP2At cs

/-- `re.match(r'^[a-zA-Z0-9_-]{11}$', url)`: eleven class characters
anchored at the start; in Python, `$` matches at the end of the string or
just before a newline that ends the string, so a trailing `'\n'` after the
eleven characters is also accepted. -/
def bareMatch (cs : List Char) : Bool :=
  isIdToken (cs.take 11) && (decide (cs.drop 11 = []) || decide (cs.drop 11 = ['\n']))

/-- app.py `extract_video_id`: first pattern searched over the whole
string, then the second pattern, then the anchored bare-id check (which
returns the input string itself, not the group). -/
def extract_video_id (url : String) : Option String :=
  match searchP1 url.data with
  | some t => some (String.mk t)
  | none =>
    match searchP2 url.data with
    | some t => some (String.mk t)
    | none => if bareMatch url.data then some url else none

/-! ## Spec-side shape predicates (declarative, from the spec's words)

These describe the URL shapes of §4.1 / §8 of the spec as occurrence
conditions on the string, independent of the search routine above. -/

/-- `pat` occurs at position `i` immediately followed by an 11-character
token of the allowed alphabet. -/
def occursTokenAfter (cs pat : List Char) (i : Nat) : Bool :=
  pat.isPrefixOf (cs.drop i) && isIdToken ((cs.drop (i + pat.length)).take 11)

/-- The string contains a watch, shortened, or embed URL shape with an
11-character token right after the recognized marker. -/
def hasP1Shape (cs : List Char) : Bool :=
  (List.range (cs.length + 1)).any fun i =>
    occursTokenAfter cs m1 i || occursTokenAfter cs m2 i || occursTokenAfter cs m3 i

/-- Positions `i < j` carry the second shape: `youtube.com/` at `i`, a
newline-free gap, then `?v=` or `&v=` at `j` followed by an 11-char token. -/
def vparamAt (cs : List Char) (i j : Nat) : Bool :=
  p2lit.isPrefixOf (cs.drop i) && decide (i + 12 ≤ j) &&
  ((cs.drop (i + 12)).take (j - (i + 12))).all (fun c => !(c = '\n')) &&
  (occursTokenAfter cs ['?', 'v', '='] j || occursTokenAfter cs ['&', 'v', '='] j)

/-- The string contains a `youtube.com/…?v=`/`&v=` shape with a token. -/
def hasP2Shape (cs : List Char) : Bool :=
  (List.range (cs.length + 1)).any fun i =>
    (List.range (cs.length + 1)).any fun j => vparamAt cs i j

/-- The returned token occurs in the string immediately after one of the
three recognized URL markers. -/
def tokenAfterMarker (cs t : List Char) : Prop :=
  ∃ i m, (m = m1 ∨ m = m2 ∨ m = m3) ∧
    (m ++ t).isPrefixOf (cs.drop i) = true ∧ isIdToken t = true

/-- The returned token occurs immediately after a `?v=`/`&v=` that is
preceded, newline-free, by a `youtube.com/`. -/
def tokenAfterVParam (cs t : List Char) : Prop :=
  ∃ i j q, p2lit.isPrefixOf (cs.drop i) = true ∧ i + 12 ≤ j ∧
    ((cs.drop (i + 12)).take (j - (i + 12))).all (fun c => !(c = '\n')) = true ∧
    (q = '?' ∨ q = '&') ∧
    ((q :: 'v' :: '=' :: t).isPrefixOf (cs.drop j)) = true ∧ isIdToken t = true

/-- Spec-side bare-identifier shape: exactly eleven characters of the
allowed alphabet, optionally followed by one trailing newline. -/
def specBare (cs : List Char) : Bool :=
  (isIdToken cs) ||
  (decide (cs.length = 12) && isIdToken (cs.take 11) && decide (cs.drop 11 = ['\n']))

/-! ## Session/Corpus Coordinator (rgbYoutube.py)

Transcript fetching and pipeline building are external network calls; they
enter the model as oracle functions returning `Except` (an exception's
`str(e)` on the left). The fetch oracle also takes the index of the call,
since the loop over ids performs one fetch per listed id, in order. -/

/-- Python `str.strip()`: drop leading and trailing whitespace. -/
def pyStrip (s : String) : String :=
  String.mk (((s.data.dropWhile Char.isWhitespace).reverse.dropWhile Char.isWhitespace).reverse)

/-- Truthiness of `transcript_text.strip()` negated: a string is blank iff
every character is whitespace. -/
def isBlank (t : String) : Bool := t.data.all Char.isWhitespace

/-- CPython dict assignment `d[k] = v`: update in place when the key is
present (keeping its position), else append a new entry at the end. -/
def dictInsert {α : Type} (d : List (String × α)) (k : String) (v : α) :
    List (String × α) :=
  if d.any (fun p => p.1 == k) then d.map (fun p => if p.1 == k then (k, v) else p)
  else d ++ [(k, v)]

/-- Python `d[k]`/`d.get(k)` on an insertion-ordered dict. -/
def lookupKey {α : Type} (d : List (String × α)) (k : String) : Option α :=
  (d.find? (fun p => p.1 == k)).map (fun p => p.2)

/-- How many entries of the association list carry the key `k` (a proper
dict has at most one). -/
def countKey {α : Type} (d : List (String × α)) (k : String) : Nat :=
  (d.filter (fun p => p.1 == k)).length

/-- The separator placed between concatenated transcripts. -/
def sepMarker : String := "\n\n--- NEW VIDEO ---\n\n"

/-- `"\n\n--- NEW VIDEO ---\n\n".join(transcripts)`. -/
def joinSep (l : List String) : String := String.intercalate sepMarker l

/-- One entry of `failed_videos`; the build-failure entry carries no
`video_id` key, hence the `Option`. -/
structure FailEntry where
  videoId : Option String
  error : String
deriving DecidableEq

/-- The four accumulators of the fetch loop in
`process_multiple_youtube_videos`. -/
structure LoopAcc where
  successful : List String
  failed : List FailEntry
  allTranscripts : List String
  dict : List (String × String)
deriving DecidableEq

/-- The per-id fetch loop of `process_multiple_youtube_videos`: a raised
exception or a blank transcript is recorded as a per-id failure, a
non-blank transcript extends all four accumulators. -/
def pmLoop (fetch : Nat → String → Except String String) :
    Nat → List String → LoopAcc → LoopAcc
  | _, [], acc => acc
  | n, vid :: rest, acc =>
    match fetch n vid with
    | .ok t =>
      if isBlank t then
        pmLoop fetch (n + 1) rest
          { acc with failed := acc.failed ++ [⟨some vid, "Transcript is empty"⟩] }
      else
        pmLoop fetch (n + 1) rest
          { successful := acc.successful ++ [vid]
            failed := acc.failed
            allTranscripts := acc.allTranscripts ++ [t]
            dict := dictInsert acc.dict vid t }
    | .error e =>
      pmLoop fetch (n + 1) rest { acc with failed := acc.failed ++ [⟨some vid, e⟩] }

/-- The quadruple returned by `process_multiple_youtube_videos`. -/
structure MultiResult (β : Type) where
  rag_chain : Option β
  successful_videos : List String
  failed_videos : List FailEntry
  transcripts_dict : List (String × String)
deriving DecidableEq

/-- rgbYoutube.py `process_multiple_youtube_videos`. -/
def process_multiple_youtube_videos {β : Type}
    (fetch : Nat → String → Except String String)
    (build : String → Except String β) (video_ids : List String) : MultiResult β :=
  let acc := pmLoop fetch 0 video_ids ⟨[], [], [], []⟩
  if acc.allTranscripts = [] then ⟨none, [], acc.failed, []⟩
  else
    match build (joinSep acc.allTranscripts) with
    | .ok c => ⟨some c, acc.successful, acc.failed, acc.dict⟩
    | .error e =>
      ⟨none, acc.successful,
        acc.failed ++ [⟨none, "Failed to build RAG chain: " ++ e⟩], acc.dict⟩

/-- The quadruple returned by `add_video_to_existing`. -/
structure AddResult (β : Type) where
  rag_chain : Option β
  success : Bool
  error : Option String
  updated_transcripts : List (String × String)
deriving DecidableEq

/-- rgbYoutube.py `add_video_to_existing`: the whole body sits in one
`try`, so a fetch exception, a blank transcript, and a build exception all
return the original dict. -/
def add_video_to_existing {β : Type} (fetch1 : String → Except String String)
    (build : String → Except String β)
    (transcripts_dict : List (String × String)) (new_video_id : String) : AddResult β :=
  match fetch1 new_video_id with
  | .error e => ⟨none, false, some e, transcripts_dict⟩
  | .ok t =>
    if isBlank t then ⟨none, false, some "Transcript is empty", transcripts_dict⟩
    else
      let updated := dictInsert transcripts_dict new_video_id t
      match build (joinSep (updated.map (fun p => p.2))) with
      | .ok c => ⟨some c, true, none, updated⟩
      | .error e => ⟨none, false, some e, transcripts_dict⟩

/-- The triple returned by `remove_video_and_rebuild`. -/
structure RemoveResult (β : Type) where
  rag_chain : Option β
  updated_transcripts : List (String × String)
  error : Option String
deriving DecidableEq

/-- rgbYoutube.py `remove_video_and_rebuild`. `del d[k]` removes the entry
of a present key; removing the last entry is rejected before any build. -/
def remove_video_and_rebuild {β : Type} (build : String → Except String β)
    (transcripts_dict : List (String × String)) (video_id_to_remove : String) :
    RemoveResult β :=
  if transcripts_dict.all (fun p => !(p.1 == video_id_to_remove)) then
    ⟨none, transcripts_dict, some ("Video " ++ video_id_to_remove ++ " not found")⟩
  else
    let updated := transcripts_dict.filter (fun p => !(p.1 == video_id_to_remove))
    if updated = [] then ⟨none, [], some "Cannot remove last video"⟩
    else
      match build (joinSep (updated.map (fun p => p.2))) with
      | .ok c => ⟨some c, updated, none⟩
      | .error e => ⟨none, transcripts_dict, some ("Failed to rebuild RAG chain: " ++ e)⟩

/-! ### Expected-output descriptions used by the theorems -/

/-- The fetch of call `n` for `vid` yields a non-blank transcript. -/
def fetchOk (fetch : Nat → String → Except String String) (n : Nat) (vid : String) : Bool :=
  match fetch n vid with
  | .ok t => !(isBlank t)
  | .error _ => false

/-- The transcript of a successful fetch (unused default on failure). -/
def getTranscript (fetch : Nat → String → Except String String) (n : Nat) (vid : String) : String :=
  match fetch n vid with
  | .ok t => t
  | .error _ => ""

/-- The ids whose fetch succeeds with a non-blank transcript, in order. -/
def expSucc (fetch : Nat → String → Except String String) : Nat → List String → List String
  | _, [] => []
  | n, vid :: rest => (if fetchOk fetch n vid then [vid] else []) ++ expSucc fetch (n + 1) rest

/-- The failure entry contributed by one id: its error message on a raise,
"Transcript is empty" on a blank transcript, nothing on success. -/
def expFailEntry (fetch : Nat → String → Except String String) (n : Nat) (vid : String) :
    List FailEntry :=
  match fetch n vid with
  | .ok t => if isBlank t then [⟨some vid, "Transcript is empty"⟩] else []
  | .error e => [⟨some vid, e⟩]

/-- The accumulated per-id failures, in order. -/
def expFail (fetch : Nat → String → Except String String) : Nat → List String → List FailEntry
  | _, [] => []
  | n, vid :: rest => expFailEntry fetch n vid ++ expFail fetch (n + 1) rest

/-- The successfully fetched transcripts, in fetch order. -/
def expTrans (fetch : Nat → String → Except String String) : Nat → List String → List String
  | _, [] => []
  | n, vid :: rest =>
    (if fetchOk fetch n vid then [getTranscript fetch n vid] else []) ++ expTrans fetch (n + 1) rest

/-- The corpus dictionary obtained by inserting each successful transcript
in fetch order. -/
def expDict (fetch : Nat → String → Except String String) :
    Nat → List String → List (String × String) → List (String × String)
  | _, [], d => d
  | n, vid :: rest, d =>
    expDict fetch (n + 1) rest
      (if fetchOk fetch n vid then dictInsert d vid (getTranscript fetch n vid) else d)

/-- The transcript of the last successful fetch of `vid` among the listed
occurrences, if any. -/
def lastOkTranscript (fetch : Nat → String → Except String String) :
    Nat → List String → String → Option String
  | _, [], _ => none
  | n, x :: rest, vid =>
    match lastOkTranscript fetch (n + 1) rest vid with
    | some t => some t
    | none => if x == vid && fetchOk fetch n x then some (getTranscript fetch n x) else none

/-! ## HTTP surface (app.py)

The process-wide session triple and the handlers that mutate it. A handler
either returns a JSON body, raises an `HTTPException(status, detail)`, or
lets an uncaught Python exception escape (modelled by `keyError`, which
the 500-detail f-string raises when a failure entry lacks a `video_id`). -/

/-- The module-level session: `current_rag_chain`, `current_transcripts`,
`current_video_ids`. -/
structure AppState (β : Type) where
  current_rag_chain : Option β
  current_transcripts : List (String × String)
  current_video_ids : List String
deriving DecidableEq

/-- The outcome a handler hands to the web framework. -/
inductive ApiOutcome (α : Type)
  | ok (resp : α)
  | httpError (status : Nat) (detail : String)
  | keyError
deriving DecidableEq

/-- The success body of `POST /process-video`. -/
structure ProcessResp where
  video_ids : List String
  failed_videos : List FailEntry
  invalid_urls : List String
deriving DecidableEq

/-- The detail f-string of the 500 branch of `process_video` subscripts
`v['video_id']` on every failure entry; an entry without that key raises
`KeyError`, modelled by `none`. -/
def errorDetails (l : List FailEntry) : Option String :=
  if l.all (fun f => f.videoId.isSome) then
    some (String.intercalate "; " (l.map (fun f => f.videoId.getD "" ++ ": " ++ f.error)))
  else none

/-- The video ids extracted from the stripped request urls, in order. -/
def extractedIds (urls : List String) : List String :=
  urls.filterMap (fun u => extract_video_id (pyStrip u))

/-- app.py `process_video`: extract ids from the stripped urls, keep the
unextractable urls aside, process the batch, and replace the session only
on success. -/
def process_video {β : Type} (fetch : Nat → String → Except String String)
    (build : String → Except String β) (st : AppState β) (urls : List String) :
    ApiOutcome ProcessResp × AppState β :=
  if urls = [] then
    (.httpError 400 "Please provide at least one YouTube URL.", st)
  else
    let vids := extractedIds urls
    let invalid := urls.filter (fun u => (extract_video_id (pyStrip u)).isNone)
    if vids = [] then
      (.httpError 400 ("No valid YouTube URLs found. Invalid URLs: " ++
        String.intercalate ", " invalid), st)
    else
      let r := process_multiple_youtube_videos fetch build vids
      match r.rag_chain with
      | none =>
        match errorDetails r.failed_videos with
        | some d => (.httpError 500 ("Failed to process videos. Errors: " ++ d), st)
        | none => (.keyError, st)
      | some c =>
        (.ok ⟨r.successful_videos, r.failed_videos, invalid⟩,
          ⟨some c, r.transcripts_dict, r.successful_videos⟩)

/-- The success body of `POST /add-video`. -/
structure AddResp where
  video_id : String
  video_ids : List String
deriving DecidableEq

/-- app.py `add_video`. The session is only written after the success
check; `current_video_ids.append` puts the new id at the end. On the 500
branch `error` is always present, so `getD` never fires. -/
def add_video {β : Type} (fetch1 : String → Except String String)
    (build : String → Except String β) (st : AppState β) (url : String) :
    ApiOutcome AddResp × AppState β :=
  match st.current_rag_chain with
  | none => (.httpError 400 "No initial videos loaded. Please load videos first.", st)
  | some _ =>
    match extract_video_id (pyStrip url) with
    | none => (.httpError 400 "Invalid YouTube URL.", st)
    | some vid =>
      if vid ∈ st.current_video_ids then
        (.httpError 400 ("Video " ++ vid ++ " is already loaded."), st)
      else
        let r := add_video_to_existing fetch1 build st.current_transcripts vid
        if r.success then
          (.ok ⟨vid, st.current_video_ids ++ [vid]⟩,
            ⟨r.rag_chain, r.updated_transcripts, st.current_video_ids ++ [vid]⟩)
        else
          (.httpError 500 ("Failed to add video: " ++ r.error.getD ""), st)

/-- The success body of `POST /remove-video`. -/
structure RemResp where
  video_id : String
  video_ids : List String
deriving DecidableEq

/-- app.py `remove_video`. `current_video_ids.remove` deletes the first
occurrence, i.e. `List.erase`. -/
def remove_video {β : Type} (build : String → Except String β)
    (st : AppState β) (video_id : String) : ApiOutcome RemResp × AppState β :=
  match st.current_rag_chain with
  | none => (.httpError 400 "No videos loaded.", st)
  | some _ =>
    if video_id ∈ st.current_video_ids then
      let r := remove_video_and_rebuild build st.current_transcripts video_id
      match r.error with
      | some e => (.httpError 500 ("Failed to remove video: " ++ e), st)
      | none =>
        (.ok ⟨video_id, st.current_video_ids.erase video_id⟩,
          ⟨r.rag_chain, r.updated_transcripts, st.current_video_ids.erase video_id⟩)
    else (.httpError 400 ("Video " ++ video_id ++ " not found in session."), st)

/-- One state-mutating request against the running process. `POST /chat`
and `GET /health` never write the session, so they contribute no step. -/
inductive AppStep {β : Type} : AppState β → AppState β → Prop
  | processReq (fetch : Nat → String → Except String String)
      (build : String → Except String β) (urls : List String) (st : AppState β) :
      AppStep st (process_video fetch build st urls).2
  | addReq (fetch1 : String → Except String String)
      (build : String → Except String β) (url : String) (st : AppState β) :
      AppStep st (add_video fetch1 build st url).2
  | removeReq (build : String → Except String β) (video_id : String) (st : AppState β) :
      AppStep st (remove_video build st video_id).2

/-- Session states reachable from the empty process-start state through
any sequence of requests with any oracle behaviours. -/
inductive ReachableApp {β : Type} : AppState β → Prop
  | start : ReachableApp ⟨none, [], []⟩
  | next {st st' : AppState β} : ReachableApp st → AppStep st st' → ReachableApp st'

/-! ## Persistent chat-session store (personal_chat.py)

Messages are the three LangChain classes the store serializes. The session
file's parsed JSON is modelled one level deep: the top value is an array or
not; each item is an object with string fields or not. `item.get` on a
non-object raises `AttributeError`; iterating a non-array top value either
raises directly or yields non-objects, so the first subscript raises. -/

inductive ChatMsg
  | SystemMessage (content : String)
  | HumanMessage (content : String)
  | AIMessage (content : String)
deriving DecidableEq

/-- One serialized `{"role": ..., "content": ...}` dict. -/
structure RoleDict where
  role : String
  content : String
deriving DecidableEq

/-- personal_chat.py `history_to_dicts` (the `else: continue` branch for
foreign message classes is unreachable here: `ChatMsg` has no others). -/
def history_to_dicts : List ChatMsg → List RoleDict
  | [] => []
  | .SystemMessage c :: rest => ⟨"system", c⟩ :: history_to_dicts rest
  | .HumanMessage c :: rest => ⟨"user", c⟩ :: history_to_dicts rest
  | .AIMessage c :: rest => ⟨"assistant", c⟩ :: history_to_dicts rest

/-- An element of the parsed top-level JSON array. -/
inductive JsonItem
  | obj (fields : List (String × String))
  | nonObj
deriving DecidableEq

/-- The parsed top-level JSON value of a session file. -/
inductive JsonData
  | arr (items : List JsonItem)
  | nonArr
deriving DecidableEq

/-- The uncaught Python exceptions `dicts_to_history` can raise. -/
inductive PyErr
  | attributeError
  | typeError
deriving DecidableEq

/-- `create_initial_history()`. -/
def create_initial_history : List ChatMsg :=
  [.SystemMessage "You are a friendly personal assistant. Answer briefly and clearly."]

/-- The loop of `dicts_to_history`: known roles are appended, unknown
roles are skipped, and `item.get` on a non-dict raises `AttributeError`. -/
def dictsLoop : List JsonItem → Except PyErr (List ChatMsg)
  | [] => .ok []
  | .nonObj :: _ => .error .attributeError
  | .obj fs :: rest =>
    match dictsLoop rest with
    | .error e => .error e
    | .ok tail =>
      let content := (lookupKey fs "content").getD ""
      match lookupKey fs "role" with
      | some "system" => .ok (.SystemMessage content :: tail)
      | some "user" => .ok (.HumanMessage content :: tail)
      | some "assistant" => .ok (.AIMessage content :: tail)
      | _ => .ok tail

/-- personal_chat.py `dicts_to_history`: iterate the parsed value; an
empty resulting history is replaced by the initial one. Iterating a
non-array top value raises (`TypeError`, or `AttributeError` at the first
item for dict/str values — collapsed to one error here). -/
def dicts_to_history : JsonData → Except PyErr (List ChatMsg)
  | .nonArr => .error .typeError
  | .arr items =>
    match dictsLoop items with
    | .error e => .error e
    | .ok h => .ok (if h = [] then create_initial_history else h)

/-- What one session file holds on disk: bytes `json.load` rejects
(`JSONDecodeError`/`OSError`), or a parsed JSON value. A missing file is
simply absent from the directory. -/
inductive FileData
  | unparsable
  | parsed (data : JsonData)
deriving DecidableEq

def SESSIONS_DIR : String := "sessions"

/-- `session_name.replace(" ", "_")`. -/
def safeName (session_name : String) : String :=
  String.mk (session_name.data.map (fun c => if c = ' ' then '_' else c))

/-- personal_chat.py `get_session_file`:
`os.path.join(SESSIONS_DIR, f"{safe_name}.json")` (POSIX join). -/
def get_session_file (session_name : String) : String :=
  SESSIONS_DIR ++ "/" ++ safeName session_name ++ ".json"

/-- The JSON value `json.dump` writes for a history. -/
def savedData (history : List ChatMsg) : JsonData :=
  .arr ((history_to_dicts history).map (fun d => .obj [("role", d.role), ("content", d.content)]))

/-- personal_chat.py `save_history`: write the serialized history at the
session's path (overwriting any previous file). -/
def save_history (dir : List (String × FileData)) (history : List ChatMsg)
    (session_name : String) : List (String × FileData) :=
  dictInsert dir (get_session_file session_name) (.parsed (savedData history))

/-- personal_chat.py `load_history`: a missing file and a file whose bytes
fail to parse as JSON both produce (and persist) a fresh initial history;
a parsed file is converted, which may itself raise. Returns the history
and the directory after the call. -/
def load_history (dir : List (String × FileData)) (session_name : String) :
    Except PyErr (List ChatMsg × List (String × FileData)) :=
  match lookupKey dir (get_session_file session_name) with
  | none => .ok (create_initial_history, save_history dir create_initial_history session_name)
  | some .unparsable =>
    .ok (create_initial_history, save_history dir create_initial_history session_name)
  | some (.parsed data) =>
    match dicts_to_history data with
    | .error e => .error e
    | .ok h => .ok (h, dir)

/-- Index (from the start) of the last '.' in `cs`, if any. -/
def lastDotIdx : List Char → Option Nat
  | [] => none
  | c :: cs =>
    match lastDotIdx cs with
    | some i => some (i + 1)
    | none => if c = '.' then some 0 else none

/-- `os.path.splitext(f)[0]` for a bare filename: cut at the last dot,
unless every character before that dot is itself a dot. -/
def splitextBase (f : String) : String :=
  match lastDotIdx f.data with
  | none => f
  | some i => if (f.data.take i).all (fun c => c = '.') then f else String.mk (f.data.take i)

/-- Python `f.endswith(suffix)`. -/
def pyEndsWith (f suffixStr : String) : Bool := suffixStr.data.isSuffixOf f.data

/-- personal_chat.py `list_sessions` over the directory's filenames. -/
def list_sessions (files : List String) : List String :=
  (files.filter (fun f => pyEndsWith f ".json")).map splitextBase

/-- Two session names differ only by spaces versus underscores. -/
def nameEquivL : List Char → List Char → Bool
  | [], [] => true
  | c :: cs, d :: ds =>
    (c == d || ((c == ' ' || c == '_') && (d == ' ' || d == '_'))) && nameEquivL cs ds
  | _, _ => false

/-- Two session names differ only by spaces versus underscores. -/
def nameEquiv (n1 n2 : String) : Bool := nameEquivL n1.data n2.data


/-! ### Concrete oracles used by the witnesses -/

/-- A fetch oracle: "AAAAAAAAAAA" has the transcript "hello", every other
id raises "boom". -/
def wfetch : Nat → String → Except String String :=
  fun _ vid => if vid == "AAAAAAAAAAA" then .ok "hello" else .error "boom"

/-- A fetch oracle whose transcript differs between the first call and
later calls. -/
def wfetchSeq : Nat → String → Except String String :=
  fun n _ => if n == 0 then .ok "first" else .ok "second"

/-- A fetch oracle that always raises. -/
def wfetchFail : Nat → String → Except String String := fun _ _ => .error "boom"

/-- A build oracle that returns the combined text itself as the handle. -/
def wbuild : String → Except String String := fun s => .ok s

/-- A single-call fetch oracle for the add-video witnesses. -/
def wfetch1 : String → Except String String :=
  fun vid => if vid == "BBBBBBBBBBB" then .ok "world" else .error "boom"

/-! # Theorems -/

/-! ## Shared dictionary lemmas -/

theorem lookupKey_cons_pos {α : Type} (a : String) (b : α) (d : List (String × α))
    (k : String) (h : (a == k) = true) : lookupKey ((a, b) :: d) k = some b := by
  simp only [lookupKey]
  rw [@List.find?_cons_of_pos _ (fun p => p.1 == k) (a, b) d h]
  rfl

theorem lookupKey_cons_neg {α : Type} (a : String) (b : α) (d : List (String × α))
    (k : String) (h : (a == k) = false) : lookupKey ((a, b) :: d) k = lookupKey d k := by
  simp only [lookupKey]
  rw [@List.find?_cons_of_neg _ (fun p => p.1 == k) (a, b) d (by simp [h])]

theorem lookupKey_eq_none_iff {α : Type} (d : List (String × α)) (k : String) :
    lookupKey d k = none ↔ d.any (fun p => p.1 == k) = false := by
  induction d with
  | nil => simp [lookupKey]
  | cons p d ih =>
    obtain ⟨a, b⟩ := p
    cases hb : (a == k) with
    | false =>
      rw [lookupKey_cons_neg _ _ _ _ hb, List.any_cons, hb]
      simpa using ih
    | true =>
      rw [lookupKey_cons_pos _ _ _ _ hb, List.any_cons, hb]
      simp

theorem lookupKey_append {α : Type} (d d' : List (String × α)) (k : String) :
    lookupKey (d ++ d') k =
      match lookupKey d k with
      | some v => some v
      | none => lookupKey d' k := by
  simp only [lookupKey]
  rw [List.find?_append]
  cases h : List.find? (fun p => p.1 == k) d <;> simp [h]

theorem lookupKey_map_update_self {α : Type} (d : List (String × α)) (k : String) (v : α)
    (h : d.any (fun p => p.1 == k) = true) :
    lookupKey (d.map (fun p => if p.1 == k then (k, v) else p)) k = some v := by
  induction d with
  | nil => simp at h
  | cons p d ih =>
    obtain ⟨a, b⟩ := p
    cases hb : (a == k) with
    | false =>
      simp only [List.any_cons, hb, Bool.false_or] at h
      simp only [List.map_cons, if_neg (by simp [hb] : ¬ ((a, b).1 == k) = true)]
      rw [lookupKey_cons_neg _ _ _ _ hb]
      exact ih h
    | true =>
      simp only [List.map_cons, if_pos (hb : ((a, b).1 == k) = true)]
      exact lookupKey_cons_pos _ _ _ _ (beq_self_eq_true k)

theorem lookupKey_map_update_ne {α : Type} (d : List (String × α)) (k k' : String) (v : α)
    (hne : k' ≠ k) :
    lookupKey (d.map (fun p => if p.1 == k then (k, v) else p)) k' = lookupKey d k' := by
  induction d with
  | nil => rfl
  | cons p d ih =>
    obtain ⟨a, b⟩ := p
    cases hb : (a == k) with
    | false =>
      simp only [List.map_cons, if_neg (by simp [hb] : ¬ ((a, b).1 == k) = true)]
      cases hb' : (a == k') with
      | false =>
        rw [lookupKey_cons_neg _ _ _ _ hb', lookupKey_cons_neg _ _ _ _ hb']
        exact ih
      | true =>
        rw [lookupKey_cons_pos _ _ _ _ hb', lookupKey_cons_pos _ _ _ _ hb']
    | true =>
      simp only [List.map_cons, if_pos (hb : ((a, b).1 == k) = true)]
      have ha : a = k := beq_iff_eq.mp hb
      have hk : (k == k') = false := beq_eq_false_iff_ne.mpr (fun hh => hne hh.symm)
      have ha' : (a == k') = false := by rw [ha]; exact hk
      rw [lookupKey_cons_neg _ _ _ _ hk, lookupKey_cons_neg _ _ _ _ ha']
      exact ih

theorem lookupKey_dictInsert_self {α : Type} (d : List (String × α)) (k : String) (v : α) :
    lookupKey (dictInsert d k v) k = some v := by
  unfold dictInsert
  by_cases h : d.any (fun p => p.1 == k) = true
  case neg =>
    rw [if_neg h]
    rw [Bool.not_eq_true] at h
    rw [lookupKey_append, (lookupKey_eq_none_iff d k).mpr h]
    exact lookupKey_cons_pos _ _ _ _ (beq_self_eq_true k)
  case pos =>
    rw [if_pos h]
    exact lookupKey_map_update_self d k v h

theorem lookupKey_dictInsert_ne {α : Type} (d : List (String × α)) (k k' : String) (v : α)
    (hne : k' ≠ k) : lookupKey (dictInsert d k v) k' = lookupKey d k' := by
  unfold dictInsert
  by_cases h : d.any (fun p => p.1 == k) = true
  case neg =>
    rw [if_neg h]
    rw [Bool.not_eq_true] at h
    rw [lookupKey_append]
    have hk : (k == k') = false := beq_eq_false_iff_ne.mpr (fun hh => hne hh.symm)
    cases hd : lookupKey d k' with
    | none =>
      simp only
      rw [lookupKey_cons_neg _ _ _ _ hk]
      rfl
    | some w => simp
  case pos =>
    rw [if_pos h]
    exact lookupKey_map_update_ne d k k' v hne

theorem dictInsert_of_fresh {α : Type} (d : List (String × α)) (k : String) (v : α)
    (h : lookupKey d k = none) : dictInsert d k v = d ++ [(k, v)] := by
  rw [lookupKey_eq_none_iff] at h
  unfold dictInsert
  rw [if_neg (by simp [h])]

theorem dictInsert_ne_nil {α : Type} (d : List (String × α)) (k : String) (v : α) :
    dictInsert d k v ≠ [] := by
  unfold dictInsert
  by_cases h : d.any (fun p => p.1 == k) = true
  case neg => rw [if_neg h]; simp
  case pos =>
    rw [if_pos h]
    intro hmap
    rw [List.map_eq_nil_iff] at hmap
    subst hmap
    simp at h

theorem countKey_nil {α : Type} (k : String) : countKey ([] : List (String × α)) k = 0 := rfl

theorem countKey_cons {α : Type} (a : String) (b : α) (d : List (String × α)) (k : String) :
    countKey ((a, b) :: d) k = (if (a == k) = true then 1 else 0) + countKey d k := by
  simp only [countKey, List.filter_cons]
  cases hb : (a == k)
  · simp [hb]
  · simp [hb]
    omega

theorem countKey_pos_iff_any {α : Type} (d : List (String × α)) (k : String) :
    0 < countKey d k ↔ d.any (fun p => p.1 == k) = true := by
  induction d with
  | nil => simp [countKey]
  | cons p d ih =>
    obtain ⟨a, b⟩ := p
    rw [countKey_cons, List.any_cons]
    cases hb : (a == k) <;> simp [hb, ih]

theorem countKey_map_update {α : Type} (d : List (String × α)) (k k' : String) (v : α) :
    countKey (d.map (fun p => if p.1 == k then (k, v) else p)) k' = countKey d k' := by
  induction d with
  | nil => rfl
  | cons p d ih =>
    obtain ⟨a, b⟩ := p
    cases hb : (a == k) with
    | false =>
      simp only [List.map_cons, if_neg (by simp [hb] : ¬ ((a, b).1 == k) = true)]
      rw [countKey_cons, countKey_cons, ih]
    | true =>
      simp only [List.map_cons, if_pos (hb : ((a, b).1 == k) = true)]
      have ha : a = k := beq_iff_eq.mp hb
      rw [countKey_cons, countKey_cons, ih, ha]

theorem countKey_append {α : Type} (d d' : List (String × α)) (k : String) :
    countKey (d ++ d') k = countKey d k + countKey d' k := by
  simp [countKey, List.filter_append]

theorem countKey_dictInsert_self {α : Type} (d : List (String × α)) (k : String) (v : α)
    (h : countKey d k ≤ 1) : countKey (dictInsert d k v) k = 1 := by
  unfold dictInsert
  by_cases hb : d.any (fun p => p.1 == k) = true
  case neg =>
    rw [if_neg hb]
    rw [Bool.not_eq_true] at hb
    have h0 : countKey d k = 0 := by
      by_contra hc
      rw [(countKey_pos_iff_any d k).mp (Nat.pos_of_ne_zero hc)] at hb
      exact Bool.true_eq_false.mp hb
    rw [countKey_append, h0, countKey_cons]
    simp [beq_self_eq_true, countKey]
  case pos =>
    have h1 : 0 < countKey d k := (countKey_pos_iff_any d k).mpr hb
    rw [if_pos hb]
    rw [countKey_map_update]
    omega

theorem countKey_dictInsert_ne {α : Type} (d : List (String × α)) (k k' : String) (v : α)
    (hne : k' ≠ k) : countKey (dictInsert d k v) k' = countKey d k' := by
  unfold dictInsert
  by_cases hb : d.any (fun p => p.1 == k) = true
  case neg =>
    rw [if_neg hb]
    rw [Bool.not_eq_true] at hb
    rw [countKey_append, countKey_cons]
    have hk : (k == k') = false := beq_eq_false_iff_ne.mpr (fun hh => hne hh.symm)
    simp [hk, countKey]
  case pos =>
    rw [if_pos hb]
    exact countKey_map_update d k k' v

theorem countKey_le_dictInsert {α : Type} (d : List (String × α)) (k k' : String) (v : α) :
    countKey d k' ≤ countKey (dictInsert d k v) k' := by
  unfold dictInsert
  by_cases hb : d.any (fun p => p.1 == k) = true
  case neg =>
    rw [if_neg hb]
    rw [Bool.not_eq_true] at hb
    rw [countKey_append]
    omega
  case pos =>
    rw [if_pos hb]
    rw [countKey_map_update]

/-! ## Chat-session store: round trip (C7) -/

theorem dictsLoop_saved (h : List ChatMsg) :
    dictsLoop ((history_to_dicts h).map
      (fun d => JsonItem.obj [("role", d.role), ("content", d.content)])) = .ok h := by
  induction h with
  | nil => simp [history_to_dicts, dictsLoop]
  | cons m rest ih =>
    cases m with
    | SystemMessage c =>
      simp only [history_to_dicts, List.map_cons, dictsLoop, ih]
      simp [lookupKey, List.find?]
    | HumanMessage c =>
      simp only [history_to_dicts, List.map_cons, dictsLoop, ih]
      simp [lookupKey, List.find?]
    | AIMessage c =>
      simp only [history_to_dicts, List.map_cons, dictsLoop, ih]
      simp [lookupKey, List.find?]

theorem dicts_to_history_saved (h : List ChatMsg) (hne : h ≠ []) :
    dicts_to_history (savedData h) = .ok h := by
  have hd : history_to_dicts h ≠ [] := by
    cases h with
    | nil => exact absurd rfl hne
    | cons m rest => cases m <;> simp [history_to_dicts]
  simp only [savedData, dicts_to_history, dictsLoop_saved]
  simp [hne]

/-- C7 counterexample: the claim quantifies over every message history,
but saving the empty history and loading it back yields the initial
single-system-message history, not the empty sequence — a message is
added by the empty-history replacement in `dicts_to_history`. -/
theorem save_load_empty_history_not_round_trip :
    load_history (save_history [] ([] : List ChatMsg) "default") "default" =
      .ok (create_initial_history, save_history [] ([] : List ChatMsg) "default")
    ∧ create_initial_history ≠ ([] : List ChatMsg) := by
  constructor
  · rfl
  · intro h
    simp [create_initial_history] at h

/-- C7 (amended): for every non-empty message history, saving it under a
session name and then loading that session returns exactly the same
message sequence — every role and content preserved, in order, nothing
added or dropped — and leaves the directory as the save wrote it. -/
theorem save_then_load_round_trips (dir : List (String × FileData)) (h : List ChatMsg)
    (name : String) (hne : h ≠ []) :
    load_history (save_history dir h name) name = .ok (h, save_history dir h name) := by
  have hl : lookupKey (save_history dir h name) (get_session_file name)
      = some (.parsed (savedData h)) := lookupKey_dictInsert_self _ _ _
  unfold load_history
  simp only [hl, dicts_to_history_saved h hne]

/-- C7 witness: a concrete two-message history round-trips. -/
theorem save_then_load_round_trips_witness :
    load_history (save_history [] [ChatMsg.HumanMessage "hi", ChatMsg.AIMessage "hello"] "work")
        "work" =
      .ok ([ChatMsg.HumanMessage "hi", ChatMsg.AIMessage "hello"],
        save_history [] [ChatMsg.HumanMessage "hi", ChatMsg.AIMessage "hello"] "work") :=
  save_then_load_round_trips [] [ChatMsg.HumanMessage "hi", ChatMsg.AIMessage "hello"] "work"
    (by simp)

/-! ## Chat-session store: corruption policy (C8) -/

/-- C8 counterexample: a session file that exists and fails to parse as
the expected content — it holds the JSON text `[1]`, a well-formed JSON
array whose element is not an object — makes `load_history` raise
(`(1).get("role")` is an `AttributeError`) instead of resetting the
session to the initial history without error. -/
theorem load_wrong_shape_file_raises :
    load_history [(get_session_file "default", FileData.parsed (.arr [.nonObj]))] "default" =
      .error .attributeError := rfl

/-- C8 (amended): for every session whose on-disk file exists but whose
bytes fail to parse as JSON (or cannot be read at all), loading raises no
error: it resets the session to the fresh initial history, persists it,
and returns it. -/
theorem load_unparsable_file_resets (dir : List (String × FileData)) (name : String)
    (h : lookupKey dir (get_session_file name) = some .unparsable) :
    load_history dir name =
      .ok (create_initial_history, save_history dir create_initial_history name) := by
  unfold load_history
  rw [h]

/-- C8 witness: loading a concrete unparsable session file yields the
initial history and rewrites the file. -/
theorem load_unparsable_file_resets_witness :
    load_history [(get_session_file "default", FileData.unparsable)] "default" =
      .ok (create_initial_history,
        save_history [(get_session_file "default", FileData.unparsable)]
          create_initial_history "default") :=
  load_unparsable_file_resets [(get_session_file "default", FileData.unparsable)] "default"
    (by rfl)

/-! ## Chat-session store: space/underscore name normalization (C10) -/

theorem nameEquivL_map_eq (l1 : List Char) : ∀ l2 : List Char, nameEquivL l1 l2 = true →
    l1.map (fun c => if c = ' ' then '_' else c) = l2.map (fun c => if c = ' ' then '_' else c) := by
  induction l1 with
  | nil =>
    intro l2 h
    cases l2 with
    | nil => rfl
    | cons d ds => simp [nameEquivL] at h
  | cons c cs ih =>
    intro l2 h
    cases l2 with
    | nil => simp [nameEquivL] at h
    | cons d ds =>
      rw [nameEquivL, Bool.and_eq_true] at h
      obtain ⟨h1, h2⟩ := h
      simp only [List.map_cons, ih ds h2]
      congr 1
      rw [Bool.or_eq_true] at h1
      rcases h1 with hcd | hsp
      · rw [beq_iff_eq.mp hcd]
      · rw [Bool.and_eq_true] at hsp
        obtain ⟨hc, hd⟩ := hsp
        rw [Bool.or_eq_true] at hc hd
        have hc' : c = ' ' ∨ c = '_' := by
          rcases hc with h | h
          · exact Or.inl (beq_iff_eq.mp h)
          · exact Or.inr (beq_iff_eq.mp h)
        have hd' : d = ' ' ∨ d = '_' := by
          rcases hd with h | h
          · exact Or.inl (beq_iff_eq.mp h)
          · exact Or.inr (beq_iff_eq.mp h)
        rcases hc' with rfl | rfl <;> rcases hd' with rfl | rfl <;> decide

theorem safeName_eq_of_nameEquiv (n1 n2 : String) (h : nameEquiv n1 n2 = true) :
    safeName n1 = safeName n2 := by
  unfold safeName
  rw [nameEquivL_map_eq n1.data n2.data h]

theorem lastDotIdx_append_dotjson (base : List Char) :
    lastDotIdx (base ++ ".json".data) = some base.length := by
  induction base with
  | nil => rfl
  | cons c cs ih => simp [lastDotIdx, ih]

theorem splitextBase_append_json (base : List Char)
    (hnd : base.all (fun c => c = '.') = false) :
    splitextBase (String.mk (base ++ ".json".data)) = String.mk base := by
  unfold splitextBase
  have hdata : (String.mk (base ++ ".json".data)).data = base ++ ".json".data := rfl
  rw [hdata, lastDotIdx_append_dotjson]
  dsimp only
  rw [List.take_left]
  rw [if_neg (by simp [hnd])]

theorem pyEndsWith_append_json (x : String) : pyEndsWith (x ++ ".json") ".json" = true := by
  unfold pyEndsWith
  rw [String.data_append]
  exact List.isSuffixOf_iff_suffix.mpr (List.suffix_append _ _)

theorem safeName_not_all_dots (n : String) (h : n.data.all (fun c => c = '.') = false) :
    (safeName n).data.all (fun c => c = '.') = false := by
  unfold safeName
  rw [show (String.mk (n.data.map fun c => if c = ' ' then '_' else c)).data
        = n.data.map (fun c => if c = ' ' then '_' else c) from rfl]
  rw [List.all_map]
  rw [Bool.eq_false_iff] at h ⊢
  intro hall
  apply h
  rw [List.all_eq_true] at hall ⊢
  intro c hc
  have hthis := hall c hc
  simp only [Function.comp] at hthis
  by_cases hsp : c = ' '
  · simp [hsp] at hthis
  · simp [hsp] at hthis ⊢
    exact hthis

theorem safeName_no_space (n : String) :
    (safeName n).data.all (fun c => !(c = ' ')) = true := by
  unfold safeName
  rw [show (String.mk (n.data.map fun c => if c = ' ' then '_' else c)).data
        = n.data.map (fun c => if c = ' ' then '_' else c) from rfl]
  rw [List.all_map, List.all_eq_true]
  intro c _
  simp only [Function.comp]
  by_cases hsp : c = ' ' <;> simp [hsp]

/-- C10: session names that differ only by spaces versus underscores map
to the same on-disk file path; saving under one name writes exactly the
file that loading under the other reads; and listing a directory holding
the session's file reports the underscored name, which contains no space.
The listing conjuncts assume the name is not made of dots alone
(`os.path.splitext` treats an all-dots basename as having no extension). -/
theorem session_names_space_underscore_equiv (n1 n2 : String)
    (heq : nameEquiv n1 n2 = true)
    (hnd : n1.data.all (fun c => c = '.') = false) :
    get_session_file n1 = get_session_file n2
    ∧ (∀ (dir : List (String × FileData)) (h : List ChatMsg),
        lookupKey (save_history dir h n1) (get_session_file n2) = some (.parsed (savedData h)))
    ∧ list_sessions [safeName n1 ++ ".json"] = [safeName n1]
    ∧ (safeName n1).data.all (fun c => !(c = ' ')) = true := by
  have hpath : get_session_file n1 = get_session_file n2 := by
    unfold get_session_file
    rw [safeName_eq_of_nameEquiv n1 n2 heq]
  refine ⟨hpath, ?_, ?_, safeName_no_space n1⟩
  · intro dir h
    rw [← hpath]
    unfold save_history
    exact lookupKey_dictInsert_self _ _ _
  · unfold list_sessions
    rw [List.filter_cons, if_pos (pyEndsWith_append_json (safeName n1))]
    rw [List.filter_nil, List.map_cons, List.map_nil]
    congr 1
    have hmk : safeName n1 ++ ".json" = String.mk ((safeName n1).data ++ ".json".data) := by
      apply String.ext
      rw [String.data_append]
    rw [hmk, splitextBase_append_json _ (safeName_not_all_dots n1 hnd)]

/-- C10 witness: "my chat" and "my_chat" share one session file, and the
listing of that file reports "my_chat". -/
theorem session_names_space_underscore_equiv_witness :
    get_session_file "my chat" = get_session_file "my_chat"
    ∧ (∀ (dir : List (String × FileData)) (h : List ChatMsg),
        lookupKey (save_history dir h "my chat") (get_session_file "my_chat")
          = some (.parsed (savedData h)))
    ∧ list_sessions [safeName "my chat" ++ ".json"] = [safeName "my chat"]
    ∧ (safeName "my chat").data.all (fun c => !(c = ' ')) = true :=
  session_names_space_underscore_equiv "my chat" "my_chat" (by decide) (by decide)

/-! ## Coordinator: the fetch loop meets its per-id description -/

theorem pmLoop_eq (fetch : Nat → String → Except String String) (ids : List String) :
    ∀ (n : Nat) (acc : LoopAcc),
    pmLoop fetch n ids acc =
      ⟨acc.successful ++ expSucc fetch n ids, acc.failed ++ expFail fetch n ids,
        acc.allTranscripts ++ expTrans fetch n ids, expDict fetch n ids acc.dict⟩ := by
  induction ids with
  | nil =>
    intro n acc
    simp [pmLoop, expSucc, expFail, expTrans, expDict]
  | cons vid rest ih =>
    intro n acc
    cases hf : fetch n vid with
    | ok t =>
      by_cases hb : isBlank t = true
      · have hok : fetchOk fetch n vid = false := by simp [fetchOk, hf, hb]
        simp only [pmLoop, hf, hb, if_true, ih, expSucc, expFail, expTrans, expDict,
          expFailEntry, hok, Bool.false_eq_true, if_false, List.append_assoc,
          List.nil_append, List.append_nil]
      · have hok : fetchOk fetch n vid = true := by simp [fetchOk, hf]; simp [hb]
        have hg : getTranscript fetch n vid = t := by simp [getTranscript, hf]
        simp only [pmLoop, hf, hb, Bool.false_eq_true, if_false, ih, expSucc, expFail,
          expTrans, expDict, expFailEntry, hok, if_true, hg, List.append_assoc,
          List.nil_append, List.append_nil]
    | error e =>
      have hok : fetchOk fetch n vid = false := by simp [fetchOk, hf]
      simp only [pmLoop, hf, ih, expSucc, expFail, expTrans, expDict, expFailEntry,
        hok, Bool.false_eq_true, if_false, List.append_assoc, List.nil_append,
        List.append_nil]

theorem expTrans_eq_nil_iff (fetch : Nat → String → Except String String) (ids : List String) :
    ∀ n : Nat, (expTrans fetch n ids = [] ↔ expSucc fetch n ids = []) := by
  induction ids with
  | nil => intro n; simp [expTrans, expSucc]
  | cons vid rest ih =>
    intro n
    cases hok : fetchOk fetch n vid <;>
      simp [expTrans, expSucc, hok, ih]

/-- `process_multiple_youtube_videos`, rewritten through the loop's per-id
description. -/
theorem process_multiple_eq {β : Type} (fetch : Nat → String → Except String String)
    (build : String → Except String β) (ids : List String) :
    process_multiple_youtube_videos fetch build ids =
      if expTrans fetch 0 ids = [] then ⟨none, [], expFail fetch 0 ids, []⟩
      else
        match build (joinSep (expTrans fetch 0 ids)) with
        | .ok c => ⟨some c, expSucc fetch 0 ids, expFail fetch 0 ids, expDict fetch 0 ids []⟩
        | .error e =>
          ⟨none, expSucc fetch 0 ids,
            expFail fetch 0 ids ++ [⟨none, "Failed to build RAG chain: " ++ e⟩],
            expDict fetch 0 ids []⟩ := by
  unfold process_multiple_youtube_videos
  rw [pmLoop_eq]
  simp only [List.nil_append]

theorem expSucc_eq_nil_of_all_fail (fetch : Nat → String → Except String String)
    (ids : List String) :
    ∀ n : Nat, (∀ p ∈ List.enumFrom n ids, fetchOk fetch p.1 p.2 = false) →
      expSucc fetch n ids = [] := by
  induction ids with
  | nil => intro n _; rfl
  | cons vid rest ih =>
    intro n h
    have hhd : fetchOk fetch n vid = false := by
      apply h (n, vid)
      rw [List.enumFrom_cons]
      exact List.mem_cons_self _ _
    have htl : ∀ p ∈ List.enumFrom (n + 1) rest, fetchOk fetch p.1 p.2 = false := by
      intro p hp
      apply h p
      rw [List.enumFrom_cons]
      exact List.mem_cons_of_mem _ hp
    simp [expSucc, hhd, ih (n + 1) htl]

theorem expFail_all_have_id (fetch : Nat → String → Except String String)
    (ids : List String) : ∀ n : Nat,
    (expFail fetch n ids).all (fun f => f.videoId.isSome) = true := by
  induction ids with
  | nil => intro n; rfl
  | cons vid rest ih =>
    intro n
    rw [expFail, List.all_append]
    rw [ih (n + 1)]
    rw [Bool.and_true]
    unfold expFailEntry
    cases hf : fetch n vid with
    | ok t => cases hb : isBlank t <;> simp
    | error e => simp

theorem lastOk_isSome_iff_mem_expSucc (fetch : Nat → String → Except String String)
    (ids : List String) (vid : String) : ∀ n : Nat,
    (lastOkTranscript fetch n ids vid).isSome = true ↔ vid ∈ expSucc fetch n ids := by
  induction ids with
  | nil => intro n; simp [lastOkTranscript, expSucc]
  | cons x rest ih =>
    intro n
    rw [expSucc, List.mem_append, ← ih (n + 1)]
    simp only [lastOkTranscript]
    cases hrest : lastOkTranscript fetch (n + 1) rest vid with
    | some t => simp
    | none =>
      simp only [Option.isSome_none, Bool.false_eq_true, or_false]
      cases hok : fetchOk fetch n x with
      | false => simp
      | true =>
        cases hx : x == vid with
        | false =>
          have hne : ¬ vid = x := by
            rw [beq_eq_false_iff_ne] at hx
            exact fun hh => hx hh.symm
          simp [hne]
        | true =>
          rw [beq_iff_eq] at hx
          subst hx
          simp

theorem lookupKey_expDict (fetch : Nat → String → Except String String)
    (ids : List String) (vid : String) : ∀ (n : Nat) (d : List (String × String)),
    lookupKey (expDict fetch n ids d) vid =
      match lastOkTranscript fetch n ids vid with
      | some t => some t
      | none => lookupKey d vid := by
  induction ids with
  | nil => intro n d; simp [expDict, lastOkTranscript]
  | cons x rest ih =>
    intro n d
    rw [expDict, ih (n + 1)]
    simp only [lastOkTranscript]
    cases hrest : lastOkTranscript fetch (n + 1) rest vid with
    | some t => simp
    | none =>
      simp only
      cases hok : fetchOk fetch n x with
      | false => simp
      | true =>
        cases hx : x == vid with
        | false =>
          have hne : vid ≠ x := by
            rw [beq_eq_false_iff_ne] at hx
            exact fun hh => hx hh.symm
          simp only [Bool.false_and, Bool.false_eq_true, if_false, if_pos rfl]
          exact lookupKey_dictInsert_ne d x vid _ hne
        | true =>
          rw [beq_iff_eq] at hx
          subst hx
          simp only [Bool.true_and, if_pos rfl]
          exact lookupKey_dictInsert_self d x _

/-! ## Coordinator: batch initialization (C2) -/

theorem lookupKey_expDict_nil (fetch : Nat → String → Except String String)
    (ids : List String) (vid : String) :
    lookupKey (expDict fetch 0 ids []) vid = lastOkTranscript fetch 0 ids vid := by
  rw [lookupKey_expDict]
  cases h : lastOkTranscript fetch 0 ids vid <;> simp [lookupKey]

/-- C2: when at least one listed id fetches a non-blank transcript,
`process_multiple_youtube_videos` returns the succeeded ids in fetch
order, one (id, error-message) failure per raising or blank fetch, a
corpus mapping whose keys are exactly the succeeded ids (each holding the
transcript of its last successful fetch), and — when building over the
successful transcripts joined in fetch order by the separator marker
succeeds — that pipeline handle. -/
theorem process_multiple_batch_spec {β : Type} (fetch : Nat → String → Except String String)
    (build : String → Except String β) (ids : List String) (c : β)
    (hsucc : expSucc fetch 0 ids ≠ [])
    (hbuild : build (joinSep (expTrans fetch 0 ids)) = .ok c) :
    (process_multiple_youtube_videos fetch build ids).rag_chain = some c
    ∧ (process_multiple_youtube_videos fetch build ids).successful_videos = expSucc fetch 0 ids
    ∧ (process_multiple_youtube_videos fetch build ids).failed_videos = expFail fetch 0 ids
    ∧ (∀ vid, lookupKey (process_multiple_youtube_videos fetch build ids).transcripts_dict vid
        = lastOkTranscript fetch 0 ids vid)
    ∧ (∀ vid, vid ∈ (process_multiple_youtube_videos fetch build ids).successful_videos
        ↔ (lookupKey (process_multiple_youtube_videos fetch build ids).transcripts_dict
            vid).isSome = true) := by
  have hne : expTrans fetch 0 ids ≠ [] := fun hh =>
    hsucc ((expTrans_eq_nil_iff fetch ids 0).mp hh)
  rw [process_multiple_eq, if_neg hne, hbuild]
  refine ⟨rfl, rfl, rfl, ?_, ?_⟩
  · intro vid
    exact lookupKey_expDict_nil fetch ids vid
  · intro vid
    rw [lookupKey_expDict_nil fetch ids vid]
    exact (lastOk_isSome_iff_mem_expSucc fetch ids vid 0).symm

/-- C2 witness: a two-id batch with one success and one raising fetch. -/
theorem process_multiple_batch_spec_witness :
    (process_multiple_youtube_videos wfetch wbuild ["AAAAAAAAAAA", "badbadbad"]).rag_chain
        = some "hello"
    ∧ (process_multiple_youtube_videos wfetch wbuild
        ["AAAAAAAAAAA", "badbadbad"]).successful_videos = ["AAAAAAAAAAA"]
    ∧ (process_multiple_youtube_videos wfetch wbuild
        ["AAAAAAAAAAA", "badbadbad"]).failed_videos = [⟨some "badbadbad", "boom"⟩]
    ∧ lookupKey (process_multiple_youtube_videos wfetch wbuild
        ["AAAAAAAAAAA", "badbadbad"]).transcripts_dict "AAAAAAAAAAA" = some "hello" := by
  obtain ⟨h1, h2, h3, h4, _⟩ :=
    process_multiple_batch_spec wfetch wbuild ["AAAAAAAAAAA", "badbadbad"] "hello"
      (by decide) (by rfl)
  refine ⟨h1, ?_, ?_, ?_⟩
  · rw [h2]; rfl
  · rw [h3]; rfl
  · rw [h4 "AAAAAAAAAAA"]; rfl

/-! ## HTTP surface: all-fail initialization creates no session (C3) -/

/-- C3: when no extracted id yields a transcript — the url list is empty,
or no url extracts, or every fetch raises or returns a blank transcript —
`process_video` raises an HTTP error and the session triple is exactly
what it was before the request. -/
theorem process_video_all_fail_no_session {β : Type}
    (fetch : Nat → String → Except String String) (build : String → Except String β)
    (st : AppState β) (urls : List String)
    (hfail : ∀ p ∈ List.enumFrom 0 (extractedIds urls), fetchOk fetch p.1 p.2 = false) :
    (∃ code detail, (process_video fetch build st urls).1 = .httpError code detail)
    ∧ (process_video fetch build st urls).2 = st := by
  unfold process_video
  by_cases hurls : urls = []
  · rw [if_pos hurls]
    exact ⟨⟨400, _, rfl⟩, rfl⟩
  · rw [if_neg hurls]
    by_cases hvids : extractedIds urls = []
    · simp only [hvids, if_pos]
      exact ⟨⟨400, _, rfl⟩, trivial⟩
    · simp only [if_neg hvids]
      have hsucc : expSucc fetch 0 (extractedIds urls) = [] :=
        expSucc_eq_nil_of_all_fail fetch (extractedIds urls) 0 hfail
      have htr : expTrans fetch 0 (extractedIds urls) = [] :=
        (expTrans_eq_nil_iff fetch (extractedIds urls) 0).mpr hsucc
      rw [process_multiple_eq, if_pos htr]
      simp only
      unfold errorDetails
      rw [if_pos (expFail_all_have_id fetch (extractedIds urls) 0)]
      exact ⟨⟨500, _, rfl⟩, rfl⟩

/-- C3 witness: one valid shortened url whose fetch always raises leaves
the empty start state untouched. -/
theorem process_video_all_fail_no_session_witness :
    (process_video wfetchFail wbuild (⟨none, [], []⟩ : AppState String)
      ["https://youtu.be/AAAAAAAAAAA"]).2 = ⟨none, [], []⟩ :=
  (process_video_all_fail_no_session wfetchFail wbuild ⟨none, [], []⟩
    ["https://youtu.be/AAAAAAAAAAA"] (by decide)).2

/-! ## HTTP surface: AddVideo is all-or-nothing (C4) -/

/-- C4: every failing AddVideo call — missing session, unextractable url,
duplicate id, fetch error, blank transcript, or build error — raises and
leaves the session triple (corpus mapping, pipeline handle, ordered
video-id list) exactly as it was. -/
theorem add_video_failure_preserves_state {β : Type}
    (fetch1 : String → Except String String) (build : String → Except String β)
    (st : AppState β) (url : String) (code : Nat) (detail : String)
    (herr : (add_video fetch1 build st url).1 = .httpError code detail) :
    (add_video fetch1 build st url).2 = st := by
  unfold add_video at herr ⊢
  cases hch : st.current_rag_chain with
  | none => simp only [hch]
  | some c0 =>
    simp only [hch] at herr ⊢
    cases hx : extract_video_id (pyStrip url) with
    | none => simp only [hx]
    | some vid =>
      simp only [hx] at herr ⊢
      by_cases hmem : vid ∈ st.current_video_ids
      · rw [if_pos hmem]
      · rw [if_neg hmem] at herr ⊢
        by_cases hsucc : (add_video_to_existing fetch1 build st.current_transcripts
            vid).success = true
        · rw [if_pos hsucc] at herr
          exact absurd herr (by simp)
        · rw [if_neg hsucc]

/-- C4 witness: adding an already-loaded id fails with 400 and the state
is untouched. -/
theorem add_video_failure_preserves_state_witness :
    (add_video wfetch1 wbuild
      (⟨some "chain", [("AAAAAAAAAAA", "hello")], ["AAAAAAAAAAA"]⟩ : AppState String)
      "AAAAAAAAAAA").2 =
      ⟨some "chain", [("AAAAAAAAAAA", "hello")], ["AAAAAAAAAAA"]⟩ :=
  add_video_failure_preserves_state wfetch1 wbuild
    ⟨some "chain", [("AAAAAAAAAAA", "hello")], ["AAAAAAAAAAA"]⟩ "AAAAAAAAAAA"
    400 "Video AAAAAAAAAAA is already loaded." (by rfl)

/-! ## HTTP surface: a successful AddVideo extends the session (C5) -/

/-- C5: when the url extracts to a fresh id (not in the member list nor a
corpus key) and AddVideo succeeds, the new session's corpus is exactly the
prior entries, unchanged and in order, plus one appended entry mapping the
new id to its fetched transcript, and the video-id list is the prior list
with the new id appended at the end. -/
theorem add_video_success_appends {β : Type}
    (fetch1 : String → Except String String) (build : String → Except String β)
    (st : AppState β) (url vid : String) (resp : AddResp)
    (hx : extract_video_id (pyStrip url) = some vid)
    (hmem : vid ∉ st.current_video_ids)
    (hkey : lookupKey st.current_transcripts vid = none)
    (hok : (add_video fetch1 build st url).1 = .ok resp) :
    ∃ t c, fetch1 vid = .ok t ∧ isBlank t = false ∧
      (add_video fetch1 build st url).2 =
        ⟨some c, st.current_transcripts ++ [(vid, t)],
          st.current_video_ids ++ [vid]⟩ := by
  unfold add_video at hok ⊢
  cases hch : st.current_rag_chain with
  | none =>
    rw [hch] at hok
    exact absurd hok (by simp)
  | some c0 =>
    simp only [hch] at hok ⊢
    simp only [hx] at hok ⊢
    rw [if_neg hmem] at hok ⊢
    by_cases hsucc : (add_video_to_existing fetch1 build st.current_transcripts
        vid).success = true
    · rw [if_pos hsucc] at hok ⊢
      unfold add_video_to_existing at hsucc ⊢
      cases hf : fetch1 vid with
      | error e =>
        rw [hf] at hsucc
        exact absurd hsucc (by simp)
      | ok t =>
        simp only [hf] at hsucc ⊢
        by_cases hb : isBlank t = true
        · rw [if_pos hb] at hsucc
          exact absurd hsucc (by simp)
        · rw [if_neg hb] at hsucc ⊢
          cases hbuild : build (joinSep ((dictInsert st.current_transcripts vid t).map
              (fun p => p.2))) with
          | error e =>
            rw [hbuild] at hsucc
            exact absurd hsucc (by simp)
          | ok c =>
            simp only [hbuild]
            refine ⟨t, c, rfl, by simp [hb], ?_⟩
            rw [dictInsert_of_fresh st.current_transcripts vid t hkey]
    · rw [if_neg hsucc] at hok
      exact absurd hok (by simp)

/-- C5 witness: adding a fresh id to a one-video session appends exactly
one corpus entry and one member. -/
theorem add_video_success_appends_witness :
    ∃ t c, wfetch1 "BBBBBBBBBBB" = .ok t ∧ isBlank t = false ∧
      (add_video wfetch1 wbuild
        (⟨some "chain", [("AAAAAAAAAAA", "hello")], ["AAAAAAAAAAA"]⟩ : AppState String)
        "BBBBBBBBBBB").2 =
        ⟨some c, [("AAAAAAAAAAA", "hello")] ++ [("BBBBBBBBBBB", t)],
          ["AAAAAAAAAAA"] ++ ["BBBBBBBBBBB"]⟩ :=
  add_video_success_appends wfetch1 wbuild
    ⟨some "chain", [("AAAAAAAAAAA", "hello")], ["AAAAAAAAAAA"]⟩ "BBBBBBBBBBB" "BBBBBBBBBBB"
    ⟨"BBBBBBBBBBB", ["AAAAAAAAAAA", "BBBBBBBBBBB"]⟩ (by rfl) (by decide) (by rfl) (by rfl)

/-! ## HTTP surface: the corpus behind an active pipeline is never empty (C6) -/

theorem expDict_ne_nil_of_acc (fetch : Nat → String → Except String String)
    (ids : List String) : ∀ (n : Nat) (d : List (String × String)), d ≠ [] →
    expDict fetch n ids d ≠ [] := by
  induction ids with
  | nil => intro n d hd; exact hd
  | cons x rest ih =>
    intro n d hd
    rw [expDict]
    apply ih
    cases hok : fetchOk fetch n x with
    | false => simpa using hd
    | true =>
      simp only [if_pos rfl]
      exact dictInsert_ne_nil _ _ _

theorem expDict_ne_nil_of_trans (fetch : Nat → String → Except String String)
    (ids : List String) : ∀ (n : Nat) (d : List (String × String)),
    expTrans fetch n ids ≠ [] → expDict fetch n ids d ≠ [] := by
  induction ids with
  | nil => intro n d h; exact absurd rfl h
  | cons x rest ih =>
    intro n d h
    rw [expDict]
    cases hok : fetchOk fetch n x with
    | false =>
      rw [expTrans] at h
      rw [hok] at h
      simp only [Bool.false_eq_true, if_false, List.nil_append] at h
      simp only [Bool.false_eq_true, if_false]
      exact ih (n + 1) d h
    | true =>
      simp only [if_pos rfl]
      exact expDict_ne_nil_of_acc fetch rest (n + 1) _ (dictInsert_ne_nil _ _ _)

theorem process_multiple_chain_some_dict_ne_nil {β : Type}
    (fetch : Nat → String → Except String String) (build : String → Except String β)
    (ids : List String) (c : β)
    (h : (process_multiple_youtube_videos fetch build ids).rag_chain = some c) :
    (process_multiple_youtube_videos fetch build ids).transcripts_dict ≠ [] := by
  rw [process_multiple_eq] at h ⊢
  by_cases ht : expTrans fetch 0 ids = []
  · rw [if_pos ht] at h
    exact absurd h (by simp)
  · rw [if_neg ht] at h ⊢
    cases hb : build (joinSep (expTrans fetch 0 ids)) with
    | ok c' =>
      simp only [hb]
      exact expDict_ne_nil_of_trans fetch ids 0 [] ht
    | error e =>
      rw [hb] at h
      exact absurd h (by simp)

theorem add_video_to_existing_success_updated_ne_nil {β : Type}
    (fetch1 : String → Except String String) (build : String → Except String β)
    (d : List (String × String)) (vid : String)
    (h : (add_video_to_existing fetch1 build d vid).success = true) :
    (add_video_to_existing fetch1 build d vid).updated_transcripts ≠ [] := by
  unfold add_video_to_existing at h ⊢
  cases hf : fetch1 vid with
  | error e => rw [hf] at h; exact absurd h (by simp)
  | ok t =>
    simp only [hf] at h ⊢
    by_cases hb : isBlank t = true
    · rw [if_pos hb] at h
      exact absurd h (by simp)
    · rw [if_neg hb] at h ⊢
      cases hbuild : build (joinSep ((dictInsert d vid t).map (fun p => p.2))) with
      | error e => rw [hbuild] at h; exact absurd h (by simp)
      | ok c =>
        simp only [hbuild]
        exact dictInsert_ne_nil _ _ _

theorem remove_video_and_rebuild_ok_updated_ne_nil {β : Type}
    (build : String → Except String β) (d : List (String × String)) (vid : String)
    (h : (remove_video_and_rebuild build d vid).error = none) :
    (remove_video_and_rebuild build d vid).updated_transcripts ≠ [] := by
  unfold remove_video_and_rebuild at h ⊢
  by_cases hall : d.all (fun p => !(p.1 == vid)) = true
  · rw [if_pos hall] at h
    exact absurd h (by simp)
  · rw [if_neg hall] at h ⊢
    by_cases hupd : d.filter (fun p => !(p.1 == vid)) = []
    · rw [if_pos hupd] at h
      exact absurd h (by simp)
    · rw [if_neg hupd] at h ⊢
      cases hbuild : build (joinSep ((d.filter (fun p => !(p.1 == vid))).map
          (fun p => p.2))) with
      | error e => rw [hbuild] at h; exact absurd h (by simp)
      | ok c =>
        simp only [hbuild]
        exact hupd

theorem process_video_preserves_inv {β : Type} (fetch : Nat → String → Except String String)
    (build : String → Except String β) (st : AppState β) (urls : List String)
    (hinv : st.current_rag_chain ≠ none → st.current_transcripts ≠ []) :
    ((process_video fetch build st urls).2).current_rag_chain ≠ none →
      ((process_video fetch build st urls).2).current_transcripts ≠ [] := by
  unfold process_video
  by_cases hurls : urls = []
  · rw [if_pos hurls]; exact hinv
  · rw [if_neg hurls]
    by_cases hvids : extractedIds urls = []
    · simp only [hvids, if_pos]
      exact hinv
    · simp only [if_neg hvids]
      cases hr : (process_multiple_youtube_videos fetch build (extractedIds urls)).rag_chain with
      | none =>
        cases he : errorDetails (process_multiple_youtube_videos fetch build
            (extractedIds urls)).failed_videos with
        | some dd => simp only [hr, he]; exact hinv
        | none => simp only [hr, he]; exact hinv
      | some c =>
        simp only [hr]
        intro _
        exact process_multiple_chain_some_dict_ne_nil fetch build (extractedIds urls) c hr

theorem add_video_preserves_inv {β : Type} (fetch1 : String → Except String String)
    (build : String → Except String β) (st : AppState β) (url : String)
    (hinv : st.current_rag_chain ≠ none → st.current_transcripts ≠ []) :
    ((add_video fetch1 build st url).2).current_rag_chain ≠ none →
      ((add_video fetch1 build st url).2).current_transcripts ≠ [] := by
  unfold add_video
  cases hch : st.current_rag_chain with
  | none => simp only; exact hinv
  | some c0 =>
    simp only
    cases hx : extract_video_id (pyStrip url) with
    | none => simp only; exact hinv
    | some vid =>
      simp only
      by_cases hmem : vid ∈ st.current_video_ids
      · rw [if_pos hmem]; exact hinv
      · rw [if_neg hmem]
        by_cases hsucc : (add_video_to_existing fetch1 build st.current_transcripts
            vid).success = true
        · rw [if_pos hsucc]
          intro _
          exact add_video_to_existing_success_updated_ne_nil fetch1 build
            st.current_transcripts vid hsucc
        · rw [if_neg hsucc]; exact hinv

theorem remove_video_preserves_inv {β : Type} (build : String → Except String β)
    (st : AppState β) (vid : String)
    (hinv : st.current_rag_chain ≠ none → st.current_transcripts ≠ []) :
    ((remove_video build st vid).2).current_rag_chain ≠ none →
      ((remove_video build st vid).2).current_transcripts ≠ [] := by
  unfold remove_video
  cases hch : st.current_rag_chain with
  | none => simp only; exact hinv
  | some c0 =>
    simp only
    by_cases hmem : vid ∈ st.current_video_ids
    · rw [if_pos hmem]
      cases herr : (remove_video_and_rebuild build st.current_transcripts vid).error with
      | some e => simp only; exact hinv
      | none =>
        simp only
        intro _
        exact remove_video_and_rebuild_ok_updated_ne_nil build st.current_transcripts vid herr
    · rw [if_neg hmem]; exact hinv

/-- C6: removing the sole remaining video of a session is rejected with an
error and leaves the session triple unchanged; and every session state
reachable from process start — under arbitrary requests and oracle
behaviours — has a non-empty corpus whenever a pipeline handle is active. -/
theorem remove_last_video_rejected_and_corpus_nonempty {β : Type} :
    (∀ (build : String → Except String β) (st : AppState β) (vid : String) (c : β)
        (t : String), st.current_rag_chain = some c → st.current_video_ids = [vid] →
        st.current_transcripts = [(vid, t)] →
        (remove_video build st vid).1
            = .httpError 500 "Failed to remove video: Cannot remove last video"
        ∧ (remove_video build st vid).2 = st)
    ∧ (∀ st : AppState β, ReachableApp st →
        st.current_rag_chain ≠ none → st.current_transcripts ≠ []) := by
  constructor
  · intro build st vid c t hch hids htr
    unfold remove_video
    simp only [hch]
    have hmem : vid ∈ st.current_video_ids := by
      rw [hids]
      exact List.mem_singleton_self vid
    rw [if_pos hmem]
    have hr : remove_video_and_rebuild build st.current_transcripts vid
        = ⟨none, [], some "Cannot remove last video"⟩ := by
      rw [htr]
      unfold remove_video_and_rebuild
      rw [if_neg (by simp)]
      rw [if_pos (by simp)]
    rw [hr]
    exact ⟨rfl, rfl⟩
  · intro st hreach
    induction hreach with
    | start =>
      intro h
      exact absurd rfl h
    | next hr hs ih =>
      revert ih
      cases hs with
      | processReq fetch build urls st0 =>
        intro ih
        exact process_video_preserves_inv fetch build _ urls ih
      | addReq fetch1 build url st0 =>
        intro ih
        exact add_video_preserves_inv fetch1 build _ url ih
      | removeReq build vid st0 =>
        intro ih
        exact remove_video_preserves_inv build _ vid ih

/-- C6 witness: the concrete one-video session rejects the removal of its
only member unchanged, and a concrete reachable post-initialization state
has a non-empty corpus. -/
theorem remove_last_video_rejected_and_corpus_nonempty_witness :
    ((remove_video wbuild
        (⟨some "chain", [("AAAAAAAAAAA", "hello")], ["AAAAAAAAAAA"]⟩ : AppState String)
        "AAAAAAAAAAA").1
      = .httpError 500 "Failed to remove video: Cannot remove last video"
    ∧ (remove_video wbuild
        (⟨some "chain", [("AAAAAAAAAAA", "hello")], ["AAAAAAAAAAA"]⟩ : AppState String)
        "AAAAAAAAAAA").2
      = ⟨some "chain", [("AAAAAAAAAAA", "hello")], ["AAAAAAAAAAA"]⟩)
    ∧ ((process_video wfetch wbuild (⟨none, [], []⟩ : AppState String)
        ["AAAAAAAAAAA"]).2).current_transcripts ≠ [] := by
  constructor
  · exact (remove_last_video_rejected_and_corpus_nonempty (β := String)).1 wbuild
      ⟨some "chain", [("AAAAAAAAAAA", "hello")], ["AAAAAAAAAAA"]⟩ "AAAAAAAAAAA"
      "chain" "hello" rfl rfl rfl
  · exact (remove_last_video_rejected_and_corpus_nonempty (β := String)).2
      ((process_video wfetch wbuild ⟨none, [], []⟩ ["AAAAAAAAAAA"]).2)
      (ReachableApp.next ReachableApp.start
        (AppStep.processReq wfetch wbuild ["AAAAAAAAAAA"] ⟨none, [], []⟩))
      (by decide)

/-! ## Coordinator: duplicate ids in one batch (C9) -/

theorem count_expSucc (fetch : Nat → String → Except String String) (ids : List String)
    (vid : String) : ∀ n : Nat,
    (∀ p ∈ List.enumFrom n ids, p.2 = vid → fetchOk fetch p.1 p.2 = true) →
    (expSucc fetch n ids).count vid = ids.count vid := by
  induction ids with
  | nil => intro n _; rfl
  | cons x rest ih =>
    intro n h
    have htl : ∀ p ∈ List.enumFrom (n + 1) rest, p.2 = vid → fetchOk fetch p.1 p.2 = true := by
      intro p hp
      apply h p
      rw [List.enumFrom_cons]
      exact List.mem_cons_of_mem _ hp
    rw [expSucc, List.count_append, ih (n + 1) htl, List.count_cons]
    cases hx : x == vid with
    | true =>
      have hx' : x = vid := beq_iff_eq.mp hx
      have hok : fetchOk fetch n x = true := by
        apply h (n, x) _ hx'
        rw [List.enumFrom_cons]
        exact List.mem_cons_self _ _
      rw [hok, if_pos (by trivial), if_pos (by trivial), hx']
      have h1 : List.count vid [vid] = 1 := by simp
      rw [h1]
      omega
    | false =>
      have h0 : List.count vid (if fetchOk fetch n x = true then [x] else []) = 0 := by
        cases hok : fetchOk fetch n x
        · rw [if_neg (by simp)]
          rfl
        · rw [if_pos (by trivial)]
          simp [List.count_cons, hx]
      rw [h0]
      simp

theorem mem_expSucc_of_all_ok (fetch : Nat → String → Except String String)
    (ids : List String) (vid : String) : ∀ n : Nat, vid ∈ ids →
    (∀ p ∈ List.enumFrom n ids, p.2 = vid → fetchOk fetch p.1 p.2 = true) →
    vid ∈ expSucc fetch n ids := by
  induction ids with
  | nil => intro n hm _; simp at hm
  | cons x rest ih =>
    intro n hm h
    rw [expSucc, List.mem_append]
    rcases List.mem_cons.mp hm with hvx | hvr
    · left
      have hok : fetchOk fetch n x = true := by
        apply h (n, x) _ hvx.symm
        rw [List.enumFrom_cons]
        exact List.mem_cons_self _ _
      rw [hok, if_pos (by trivial)]
      simp [hvx]
    · right
      apply ih (n + 1) hvr
      intro p hp
      apply h p
      rw [List.enumFrom_cons]
      exact List.mem_cons_of_mem _ hp

theorem countKey_expDict_le_one (fetch : Nat → String → Except String String)
    (ids : List String) (vid : String) : ∀ (n : Nat) (d : List (String × String)),
    countKey d vid ≤ 1 → countKey (expDict fetch n ids d) vid ≤ 1 := by
  induction ids with
  | nil => intro n d hd; exact hd
  | cons x rest ih =>
    intro n d hd
    rw [expDict]
    apply ih
    cases hok : fetchOk fetch n x with
    | false =>
      rw [if_neg (by simp)]
      exact hd
    | true =>
      rw [if_pos (by trivial)]
      by_cases hxv : vid = x
      · subst hxv
        rw [countKey_dictInsert_self d vid _ hd]
      · rw [countKey_dictInsert_ne d x vid _ hxv]
        exact hd

theorem countKey_le_expDict (fetch : Nat → String → Except String String)
    (ids : List String) (vid : String) : ∀ (n : Nat) (d : List (String × String)),
    countKey d vid ≤ countKey (expDict fetch n ids d) vid := by
  induction ids with
  | nil => intro n d; exact Nat.le_refl _
  | cons x rest ih =>
    intro n d
    rw [expDict]
    cases hok : fetchOk fetch n x with
    | false =>
      rw [if_neg (by simp)]
      exact ih (n + 1) d
    | true =>
      rw [if_pos (by trivial)]
      exact Nat.le_trans (countKey_le_dictInsert d x vid _) (ih (n + 1) _)

theorem countKey_dictInsert_self_pos {α : Type} (d : List (String × α)) (k : String) (v : α) :
    0 < countKey (dictInsert d k v) k := by
  rw [countKey_pos_iff_any]
  by_contra hc
  rw [Bool.not_eq_true] at hc
  have hnone := (lookupKey_eq_none_iff (dictInsert d k v) k).mpr hc
  rw [lookupKey_dictInsert_self] at hnone
  exact Option.noConfusion hnone

theorem countKey_expDict_pos (fetch : Nat → String → Except String String)
    (ids : List String) (vid : String) : ∀ (n : Nat) (d : List (String × String)),
    vid ∈ expSucc fetch n ids → 0 < countKey (expDict fetch n ids d) vid := by
  induction ids with
  | nil => intro n d hm; simp [expSucc] at hm
  | cons x rest ih =>
    intro n d hm
    rw [expSucc, List.mem_append] at hm
    rw [expDict]
    cases hok : fetchOk fetch n x with
    | false =>
      rw [if_neg (by simp)]
      rcases hm with hml | hmr
      · rw [hok] at hml
        simp at hml
      · exact ih (n + 1) d hmr
    | true =>
      rw [if_pos (by trivial)]
      rcases hm with hml | hmr
      · rw [hok, if_pos (by trivial)] at hml
        rw [List.mem_singleton] at hml
        subst hml
        exact Nat.lt_of_lt_of_le (countKey_dictInsert_self_pos d vid _)
          (countKey_le_expDict fetch rest vid (n + 1) _)
      · exact ih (n + 1) _ hmr

/-- C9: when the id list carries the same fetchable id more than once,
the returned successful-id list (and hence the session's member list)
carries it once per occurrence, while the corpus dictionary holds exactly
one entry for it — the transcript of its last successful fetch — so the
membership list and the corpus keys disagree in multiplicity. -/
theorem duplicate_ids_multiplicity {β : Type} (fetch : Nat → String → Except String String)
    (build : String → Except String β) (ids : List String) (vid : String)
    (hdup : 2 ≤ ids.count vid)
    (hok : ∀ p ∈ List.enumFrom 0 ids, p.2 = vid → fetchOk fetch p.1 p.2 = true) :
    (process_multiple_youtube_videos fetch build ids).successful_videos.count vid
        = ids.count vid
    ∧ countKey (process_multiple_youtube_videos fetch build ids).transcripts_dict vid = 1
    ∧ lookupKey (process_multiple_youtube_videos fetch build ids).transcripts_dict vid
        = lastOkTranscript fetch 0 ids vid := by
  have hmem : vid ∈ ids := List.count_pos_iff.mp (by omega)
  have hmemS : vid ∈ expSucc fetch 0 ids := mem_expSucc_of_all_ok fetch ids vid 0 hmem hok
  have hTne : expTrans fetch 0 ids ≠ [] := by
    intro hh
    rw [expTrans_eq_nil_iff fetch ids 0] at hh
    rw [hh] at hmemS
    simp at hmemS
  have hcount : countKey (expDict fetch 0 ids []) vid = 1 := by
    have h1 := countKey_expDict_le_one fetch ids vid 0 [] (by simp [countKey])
    have h2 := countKey_expDict_pos fetch ids vid 0 [] hmemS
    omega
  rw [process_multiple_eq, if_neg hTne]
  cases hb : build (joinSep (expTrans fetch 0 ids)) with
  | ok c =>
    simp only
    exact ⟨count_expSucc fetch ids vid 0 hok, hcount, lookupKey_expDict_nil fetch ids vid⟩
  | error e =>
    simp only
    exact ⟨count_expSucc fetch ids vid 0 hok, hcount, lookupKey_expDict_nil fetch ids vid⟩

/-- C9 witness: the same id listed twice, fetched with different
transcripts per call: it appears twice among the successes but once in
the corpus, holding the second transcript. -/
theorem duplicate_ids_multiplicity_witness :
    (process_multiple_youtube_videos wfetchSeq wbuild
        ["AAAAAAAAAAA", "AAAAAAAAAAA"]).successful_videos.count "AAAAAAAAAAA"
      = (["AAAAAAAAAAA", "AAAAAAAAAAA"] : List String).count "AAAAAAAAAAA"
    ∧ countKey (process_multiple_youtube_videos wfetchSeq wbuild
        ["AAAAAAAAAAA", "AAAAAAAAAAA"]).transcripts_dict "AAAAAAAAAAA" = 1
    ∧ lookupKey (process_multiple_youtube_videos wfetchSeq wbuild
        ["AAAAAAAAAAA", "AAAAAAAAAAA"]).transcripts_dict "AAAAAAAAAAA"
      = lastOkTranscript wfetchSeq 0 ["AAAAAAAAAAA", "AAAAAAAAAAA"] "AAAAAAAAAAA" :=
  duplicate_ids_multiplicity wfetchSeq wbuild ["AAAAAAAAAAA", "AAAAAAAAAAA"] "AAAAAAAAAAA"
    (by decide) (by decide)

/-! ## Extraction: search and shape equivalences (C1) -/

theorem drop_drop_comm (cs : List Char) (i k : Nat) : (cs.drop i).drop k = cs.drop (i + k) := by
  rw [List.drop_drop, Nat.add_comm]

theorem searchFrom_eq_none_iff (f : List Char → Option (List Char)) (cs : List Char) :
    searchFrom f cs = none ↔ ∀ i : Nat, f (cs.drop i) = none := by
  induction cs with
  | nil =>
    constructor
    · intro h i
      rw [List.drop_nil]
      exact h
    · intro h
      exact h 0
  | cons c cs ih =>
    rw [searchFrom]
    cases hf : f (c :: cs) with
    | some t =>
      simp only
      constructor
      · intro h
        exact Option.noConfusion h
      · intro h
        have h0 := h 0
        rw [List.drop_zero] at h0
        rw [h0] at hf
        exact Option.noConfusion hf
    | none =>
      simp only
      rw [ih]
      constructor
      · intro h i
        cases i with
        | zero => rw [List.drop_zero]; exact hf
        | succ j => rw [List.drop_succ_cons]; exact h j
      · intro h j
        have hj := h (j + 1)
        rw [List.drop_succ_cons] at hj
        exact hj

theorem searchFrom_eq_some (f : List Char → Option (List Char)) (cs : List Char)
    (t : List Char) (h : searchFrom f cs = some t) : ∃ i, f (cs.drop i) = some t := by
  induction cs with
  | nil => exact ⟨0, by simpa using h⟩
  | cons c cs ih =>
    rw [searchFrom] at h
    cases hf : f (c :: cs) with
    | some t' =>
      rw [hf] at h
      refine ⟨0, ?_⟩
      rw [List.drop_zero, hf]
      simpa using h
    | none =>
      rw [hf] at h
      obtain ⟨i, hi⟩ := ih h
      refine ⟨i + 1, ?_⟩
      rwa [List.drop_succ_cons]

theorem take11Id_some (xs t : List Char) (h : take11Id xs = some t) :
    t = xs.take 11 ∧ isIdToken (xs.take 11) = true := by
  unfold take11Id at h
  by_cases hid : isIdToken (xs.take 11) = true
  · rw [if_pos hid] at h
    exact ⟨(Option.some.inj h).symm, hid⟩
  · rw [if_neg hid] at h
    exact Option.noConfusion h

theorem take11Id_isSome (xs : List Char) :
    (take11Id xs).isSome = isIdToken (xs.take 11) := by
  unfold take11Id
  by_cases hid : isIdToken (xs.take 11) = true
  · rw [if_pos hid, hid]
    rfl
  · rw [if_neg hid]
    rw [Bool.not_eq_true] at hid
    rw [hid]
    rfl

theorem tryMarker_some_structure (m xs t : List Char) (h : tryMarker m xs = some t) :
    m.isPrefixOf xs = true ∧ t = (xs.drop m.length).take 11 ∧ isIdToken t = true := by
  unfold tryMarker at h
  by_cases hp : m.isPrefixOf xs = true
  · rw [if_pos hp] at h
    obtain ⟨ht, hid⟩ := take11Id_some _ _ h
    refine ⟨hp, ht, ?_⟩
    rw [ht]
    exact hid
  · rw [if_neg hp] at h
    exact Option.noConfusion h

theorem tryMarker_isSome (m xs : List Char) :
    (tryMarker m xs).isSome = (m.isPrefixOf xs && isIdToken ((xs.drop m.length).take 11)) := by
  unfold tryMarker
  by_cases hp : m.isPrefixOf xs = true
  · rw [if_pos hp, hp, Bool.true_and, take11Id_isSome]
  · rw [if_neg hp]
    rw [Bool.not_eq_true] at hp
    rw [hp, Bool.false_and]
    rfl

theorem tryMarker_drop_isSome (cs m : List Char) (i : Nat) :
    (tryMarker m (cs.drop i)).isSome = occursTokenAfter cs m i := by
  rw [tryMarker_isSome]
  unfold occursTokenAfter
  rw [drop_drop_comm]

theorem matchP1At_isSome (cs : List Char) :
    (matchP1At cs).isSome
      = ((tryMarker m1 cs).isSome || (tryMarker m2 cs).isSome || (tryMarker m3 cs).isSome) := by
  unfold matchP1At
  cases h1 : tryMarker m1 cs with
  | some t => simp
  | none =>
    cases h2 : tryMarker m2 cs with
    | some t => simp
    | none => simp

theorem matchP1At_eq_some (cs t : List Char) (h : matchP1At cs = some t) :
    tryMarker m1 cs = some t ∨ tryMarker m2 cs = some t ∨ tryMarker m3 cs = some t := by
  unfold matchP1At at h
  cases h1 : tryMarker m1 cs with
  | some t' =>
    rw [h1] at h
    obtain rfl : t' = t := by simpa using h
    exact Or.inl rfl
  | none =>
    rw [h1] at h
    cases h2 : tryMarker m2 cs with
    | some t' =>
      rw [h2] at h
      obtain rfl : t' = t := by simpa using h
      exact Or.inr (Or.inl rfl)
    | none =>
      rw [h2] at h
      exact Or.inr (Or.inr h)

theorem occursTokenAfter_out_of_range (cs m : List Char) (i : Nat) (hm : m ≠ [])
    (hd : cs.drop i = []) : occursTokenAfter cs m i = false := by
  unfold occursTokenAfter
  rw [hd]
  cases m with
  | nil => exact absurd rfl hm
  | cons a as => rfl

theorem hasP1Shape_iff (cs : List Char) :
    hasP1Shape cs = true ↔ ∃ i, matchP1At (cs.drop i) ≠ none := by
  unfold hasP1Shape
  rw [List.any_eq_true]
  constructor
  · rintro ⟨i, _, hocc⟩
    refine ⟨i, ?_⟩
    rw [Ne, ← Option.not_isSome_iff_eq_none, Bool.not_eq_true]
    intro hns
    rw [matchP1At_isSome, tryMarker_drop_isSome, tryMarker_drop_isSome,
      tryMarker_drop_isSome] at hns
    rw [hns] at hocc
    exact Bool.noConfusion hocc
  · rintro ⟨i, hne⟩
    rw [Ne, ← Option.not_isSome_iff_eq_none, Bool.not_eq_true, Bool.not_eq_false,
      matchP1At_isSome, tryMarker_drop_isSome, tryMarker_drop_isSome,
      tryMarker_drop_isSome] at hne
    refine ⟨i, ?_, hne⟩
    rw [List.mem_range]
    by_contra hlt
    have hdrop : cs.drop i = [] := List.drop_eq_nil_iff.mpr (by omega)
    rw [occursTokenAfter_out_of_range cs m1 i (by decide) hdrop,
      occursTokenAfter_out_of_range cs m2 i (by decide) hdrop,
      occursTokenAfter_out_of_range cs m3 i (by decide) hdrop] at hne
    exact Bool.noConfusion hne

theorem append_isPrefixOf (m xs t : List Char) (hp : m.isPrefixOf xs = true)
    (ht : t = (xs.drop m.length).take 11) : (m ++ t).isPrefixOf xs = true := by
  rw [List.isPrefixOf_iff_prefix] at hp ⊢
  obtain ⟨rest, rfl⟩ := hp
  rw [List.drop_left] at ht
  subst ht
  rw [List.prefix_append_right_inj]
  exact List.take_prefix _ _

theorem searchP1_some_token (cs t : List Char) (h : searchP1 cs = some t) :
    tokenAfterMarker cs t := by
  obtain ⟨i, hi⟩ := searchFrom_eq_some matchP1At cs t h
  rcases matchP1At_eq_some _ _ hi with h1 | h1 | h1
  · obtain ⟨hp, ht, hid⟩ := tryMarker_some_structure _ _ _ h1
    exact ⟨i, m1, Or.inl rfl, append_isPrefixOf _ _ _ hp ht, hid⟩
  · obtain ⟨hp, ht, hid⟩ := tryMarker_some_structure _ _ _ h1
    exact ⟨i, m2, Or.inr (Or.inl rfl), append_isPrefixOf _ _ _ hp ht, hid⟩
  · obtain ⟨hp, ht, hid⟩ := tryMarker_some_structure _ _ _ h1
    exact ⟨i, m3, Or.inr (Or.inr rfl), append_isPrefixOf _ _ _ hp ht, hid⟩

theorem matchVEq_some_structure (xs t : List Char) (h : matchVEq xs = some t) :
    ∃ q, (q = '?' ∨ q = '&') ∧ xs.take 3 = [q, 'v', '='] ∧ take11Id (xs.drop 3) = some t := by
  rcases xs with _ | ⟨q, _ | ⟨v, _ | ⟨e, rest⟩⟩⟩
  · exact Option.noConfusion h
  · exact Option.noConfusion h
  · exact Option.noConfusion h
  · rw [show matchVEq (q :: v :: e :: rest)
        = if ((q == '?' || q == '&') && v == 'v' && e == '=') = true then take11Id rest
          else none from rfl] at h
    by_cases hcond : ((q == '?' || q == '&') && v == 'v' && e == '=') = true
    · rw [if_pos hcond] at h
      rw [Bool.and_eq_true, Bool.and_eq_true] at hcond
      obtain ⟨⟨hq, hv⟩, he⟩ := hcond
      rw [Bool.or_eq_true] at hq
      refine ⟨q, ?_, ?_, h⟩
      · rcases hq with h' | h'
        · exact Or.inl (beq_iff_eq.mp h')
        · exact Or.inr (beq_iff_eq.mp h')
      · rw [beq_iff_eq.mp hv, beq_iff_eq.mp he]
        rfl
    · rw [if_neg hcond] at h
      exact Option.noConfusion h

theorem matchVEq_of_shape (xs : List Char) (q : Char) (hq : q = '?' ∨ q = '&')
    (h3 : xs.take 3 = [q, 'v', '=']) (h11 : isIdToken ((xs.drop 3).take 11) = true) :
    matchVEq xs ≠ none := by
  rcases xs with _ | ⟨a, _ | ⟨b, _ | ⟨c, rest⟩⟩⟩
  · exact absurd h3 (by simp)
  · exact absurd h3 (by simp)
  · exact absurd h3 (by simp)
  · have hab : a = q ∧ b = 'v' ∧ c = '=' := by
      have h3' : ([a, b, c] : List Char) = [q, 'v', '='] := h3
      injection h3' with hh1 h3'
      injection h3' with hh2 h3'
      injection h3' with hh3 _
      exact ⟨hh1, hh2, hh3⟩
    obtain ⟨hh1, hh2, hh3⟩ := hab
    rw [show matchVEq (a :: b :: c :: rest)
        = if ((a == '?' || a == '&') && b == 'v' && c == '=') = true then take11Id rest
          else none from rfl]
    have hcond : ((a == '?' || a == '&') && b == 'v' && c == '=') = true := by
      rw [hh1, hh2, hh3]
      rcases hq with rfl | rfl <;> decide
    rw [if_pos hcond]
    intro hc
    rw [← Option.not_isSome_iff_eq_none, take11Id_isSome] at hc
    exact hc h11

theorem greedyVEq_none_sound (xs : List Char) : greedyVEq xs = none →
    ∀ k : Nat, (xs.take k).all (fun c => !(c = '\n')) = true →
      matchVEq (xs.drop k) = none := by
  induction xs with
  | nil =>
    intro _ k _
    rw [List.drop_nil]
    rfl
  | cons c cs ih =>
    intro h k hk
    rw [greedyVEq] at h
    cases k with
    | zero =>
      rw [List.drop_zero]
      cases hin : (if c = '\n' then none else greedyVEq cs) with
      | some t =>
        rw [hin] at h
        exact Option.noConfusion h
      | none =>
        rw [hin] at h
        exact h
    | succ j =>
      rw [List.drop_succ_cons]
      rw [List.take_succ_cons, List.all_cons, Bool.and_eq_true] at hk
      obtain ⟨hc, hk'⟩ := hk
      have hcn : ¬ c = '\n' := by simpa using hc
      cases hg : greedyVEq cs with
      | some t =>
        rw [if_neg hcn, hg] at h
        exact Option.noConfusion h
      | none => exact ih hg j hk'

theorem greedyVEq_some_structure (xs : List Char) : ∀ t, greedyVEq xs = some t →
    ∃ k, (xs.take k).all (fun c => !(c = '\n')) = true ∧
      matchVEq (xs.drop k) = some t := by
  induction xs with
  | nil => intro t h; exact Option.noConfusion h
  | cons c cs ih =>
    intro t h
    rw [greedyVEq] at h
    cases hin : (if c = '\n' then none else greedyVEq cs) with
    | some t' =>
      rw [hin] at h
      obtain rfl : t' = t := by simpa using h
      by_cases hcn : c = '\n'
      · rw [if_pos hcn] at hin
        exact Option.noConfusion hin
      · rw [if_neg hcn] at hin
        obtain ⟨k, hk, hm⟩ := ih t' hin
        refine ⟨k + 1, ?_, ?_⟩
        · rw [List.take_succ_cons, List.all_cons]
          simp [hcn, hk]
        · rw [List.drop_succ_cons]
          exact hm
    | none =>
      rw [hin] at h
      exact ⟨0, by simp, h⟩

theorem matchP2At_some_parts (xs t : List Char) (h : matchP2At xs = some t) :
    p2lit.isPrefixOf xs = true ∧ greedyVEq (xs.drop 12) = some t := by
  unfold matchP2At at h
  by_cases hp : p2lit.isPrefixOf xs = true
  · rw [if_pos hp] at h
    exact ⟨hp, h⟩
  · rw [if_neg hp] at h
    exact Option.noConfusion h

theorem matchP2At_drop_structure (cs : List Char) (i : Nat) (t : List Char)
    (h : matchP2At (cs.drop i) = some t) :
    ∃ j q, p2lit.isPrefixOf (cs.drop i) = true ∧ i + 12 ≤ j ∧
      ((cs.drop (i + 12)).take (j - (i + 12))).all (fun c => !(c = '\n')) = true ∧
      (q = '?' ∨ q = '&') ∧ (cs.drop j).take 3 = [q, 'v', '='] ∧
      take11Id (cs.drop (j + 3)) = some t := by
  obtain ⟨hp, hg⟩ := matchP2At_some_parts _ _ h
  rw [drop_drop_comm] at hg
  obtain ⟨k, hk, hm⟩ := greedyVEq_some_structure _ _ hg
  rw [drop_drop_comm] at hm
  obtain ⟨q, hq, h3, h11⟩ := matchVEq_some_structure _ _ hm
  refine ⟨i + 12 + k, q, hp, by omega, ?_, hq, h3, ?_⟩
  · have hk' : i + 12 + k - (i + 12) = k := by omega
    rw [hk']
    exact hk
  · rw [drop_drop_comm] at h11
    exact h11

theorem hasP2Shape_iff (cs : List Char) :
    hasP2Shape cs = true ↔ ∃ i, matchP2At (cs.drop i) ≠ none := by
  unfold hasP2Shape
  rw [List.any_eq_true]
  constructor
  · rintro ⟨i, _, hinner⟩
    rw [List.any_eq_true] at hinner
    obtain ⟨j, _, hv⟩ := hinner
    unfold vparamAt at hv
    rw [Bool.and_eq_true, Bool.and_eq_true, Bool.and_eq_true] at hv
    obtain ⟨⟨⟨hpre, hij⟩, hmid⟩, htok⟩ := hv
    have hij' : i + 12 ≤ j := of_decide_eq_true hij
    refine ⟨i, ?_⟩
    unfold matchP2At
    rw [if_pos hpre]
    rw [show ((cs.drop i).drop p2lit.length) = cs.drop (i + 12) from drop_drop_comm cs i 12]
    intro hc
    have hsound := greedyVEq_none_sound _ hc (j - (i + 12)) hmid
    rw [drop_drop_comm] at hsound
    have hj : i + 12 + (j - (i + 12)) = j := by omega
    rw [hj] at hsound
    have hvq : matchVEq (cs.drop j) ≠ none := by
      rw [Bool.or_eq_true] at htok
      rcases htok with ho | ho
      · unfold occursTokenAfter at ho
        rw [Bool.and_eq_true] at ho
        obtain ⟨hop, hoid⟩ := ho
        apply matchVEq_of_shape (cs.drop j) '?' (Or.inl rfl)
        · rw [List.isPrefixOf_iff_prefix, List.prefix_iff_eq_take] at hop
          exact hop.symm
        · rw [drop_drop_comm]
          exact hoid
      · unfold occursTokenAfter at ho
        rw [Bool.and_eq_true] at ho
        obtain ⟨hop, hoid⟩ := ho
        apply matchVEq_of_shape (cs.drop j) '&' (Or.inr rfl)
        · rw [List.isPrefixOf_iff_prefix, List.prefix_iff_eq_take] at hop
          exact hop.symm
        · rw [drop_drop_comm]
          exact hoid
    exact hvq hsound
  · rintro ⟨i, hne⟩
    cases hm : matchP2At (cs.drop i) with
    | none => exact absurd hm hne
    | some t =>
      obtain ⟨j, q, hp, hij, hmid, hq, h3, h11⟩ := matchP2At_drop_structure cs i t hm
    
      have hdi : cs.drop i ≠ [] := by
        intro hc
        rw [hc] at hp
        exact Bool.noConfusion hp
      have hdj : cs.drop j ≠ [] := by
        intro hc
        rw [hc] at h3
        exact absurd h3 (by simp)
      have hi : i < cs.length := by
        by_contra hc
        exact hdi (List.drop_eq_nil_iff.mpr (by omega))
      have hj : j < cs.length := by
        by_contra hc
        exact hdj (List.drop_eq_nil_iff.mpr (by omega))
      obtain ⟨ht, hid⟩ := take11Id_some _ _ h11
      refine ⟨i, by rw [List.mem_range]; omega, ?_⟩
      rw [List.any_eq_true]
      refine ⟨j, by rw [List.mem_range]; omega, ?_⟩
      unfold vparamAt
      rw [Bool.and_eq_true, Bool.and_eq_true, Bool.and_eq_true]
      refine ⟨⟨⟨hp, decide_eq_true hij⟩, hmid⟩, ?_⟩
      have hqpre : ∀ qc : Char, (cs.drop j).take 3 = [qc, 'v', '='] →
          occursTokenAfter cs [qc, 'v', '='] j = true := by
        intro qc h3'
        unfold occursTokenAfter
        rw [Bool.and_eq_true]
        constructor
        · rw [List.isPrefixOf_iff_prefix, List.prefix_iff_eq_take]
          exact h3'.symm
        · rw [show ([qc, 'v', '='] : List Char).length = 3 from rfl]
          exact hid
      rcases hq with rfl | rfl
      · rw [Bool.or_eq_true]
        exact Or.inl (hqpre '?' h3)
      · rw [Bool.or_eq_true]
        exact Or.inr (hqpre '&' h3)

theorem searchP2_some_token (cs t : List Char) (h : searchP2 cs = some t) :
    tokenAfterVParam cs t := by
  obtain ⟨i, hi⟩ := searchFrom_eq_some matchP2At cs t h
  obtain ⟨j, q, hp, hij, hmid, hq, h3, h11⟩ := matchP2At_drop_structure cs i t hi
  obtain ⟨ht, hid⟩ := take11Id_some _ _ h11
  have hqpre : ([q, 'v', '='] : List Char).isPrefixOf (cs.drop j) = true := by
    rw [List.isPrefixOf_iff_prefix, List.prefix_iff_eq_take]
    exact h3.symm
  have happ : (([q, 'v', '='] ++ t) : List Char).isPrefixOf (cs.drop j) = true := by
    apply append_isPrefixOf _ _ _ hqpre
    rw [show ([q, 'v', '='] : List Char).length = 3 from rfl, drop_drop_comm]
    exact ht
  refine ⟨i, j, q, hp, hij, hmid, hq, happ, ?_⟩
  rw [ht]
  exact hid

theorem bareMatch_eq_specBare (cs : List Char) : bareMatch cs = specBare cs := by
  unfold bareMatch specBare
  by_cases hemp : cs.drop 11 = []
  · have hlen : cs.length ≤ 11 := List.drop_eq_nil_iff.mp hemp
    have htake : cs.take 11 = cs := List.take_of_length_le hlen
    have h12 : decide (cs.length = 12) = false := by
      rw [decide_eq_false_iff_not]
      omega
    rw [hemp, htake, h12]
    simp
  · have hlen : 11 < cs.length := by
      by_contra hc
      exact hemp (List.drop_eq_nil_iff.mpr (by omega))
    have hid : isIdToken cs = false := by
      unfold isIdToken
      rw [show (cs.length == 11) = false from beq_eq_false_iff_ne.mpr (by omega),
        Bool.false_and]
    by_cases hnl : cs.drop 11 = ['\n']
    · have h12 : cs.length = 12 := by
        have hld := List.length_drop 11 cs
        rw [hnl] at hld
        simp only [List.length_singleton] at hld
        omega
      rw [hnl, hid, h12]
      simp
    · have hemp' : decide (cs.drop 11 = ([] : List Char)) = false := by
        rw [decide_eq_false_iff_not]
        exact hemp
      have hnl' : decide (cs.drop 11 = ['\n']) = false := by
        rw [decide_eq_false_iff_not]
        exact hnl
      rw [hid, hemp', hnl']
      simp

/-- C1 (amended): extraction is purely syntactic and three-way. When the
string contains a watch/shortened/embed marker followed by an 11-character
token of the allowed alphabet, or a `youtube.com/` followed — newline-free
— by a `?v=`/`&v=` with such a token, extraction returns a token occurring
at one of those places; otherwise, when the string is a bare 11-character
token of the alphabet, optionally followed by one trailing newline, the
string itself (newline included) is returned unchanged; every other string
yields no identifier. -/
theorem extract_video_id_characterization (url : String) :
    ((hasP1Shape url.data = true ∨ hasP2Shape url.data = true) →
      ∃ t, extract_video_id url = some (String.mk t) ∧
        (tokenAfterMarker url.data t ∨ tokenAfterVParam url.data t))
    ∧ (hasP1Shape url.data = false → hasP2Shape url.data = false →
        specBare url.data = true → extract_video_id url = some url)
    ∧ (hasP1Shape url.data = false → hasP2Shape url.data = false →
        specBare url.data = false → extract_video_id url = none) := by
  have hs1none : hasP1Shape url.data = false → searchP1 url.data = none := by
    intro h1
    unfold searchP1
    rw [searchFrom_eq_none_iff]
    intro i
    by_contra hc
    rw [(hasP1Shape_iff url.data).mpr ⟨i, hc⟩] at h1
    exact Bool.noConfusion h1
  have hs2none : hasP2Shape url.data = false → searchP2 url.data = none := by
    intro h2
    unfold searchP2
    rw [searchFrom_eq_none_iff]
    intro i
    by_contra hc
    rw [(hasP2Shape_iff url.data).mpr ⟨i, hc⟩] at h2
    exact Bool.noConfusion h2
  refine ⟨?_, ?_, ?_⟩
  · intro hshape
    unfold extract_video_id
    by_cases h1 : hasP1Shape url.data = true
    · obtain ⟨i, hne⟩ := (hasP1Shape_iff url.data).mp h1
      have hsne : searchP1 url.data ≠ none := by
        unfold searchP1
        rw [Ne, searchFrom_eq_none_iff]
        intro hall
        exact hne (hall i)
      obtain ⟨t, ht⟩ := Option.ne_none_iff_exists'.mp hsne
      rw [ht]
      exact ⟨t, rfl, Or.inl (searchP1_some_token url.data t ht)⟩
    · rw [Bool.not_eq_true] at h1
      have h2 : hasP2Shape url.data = true := by
        rcases hshape with h | h
        · rw [h1] at h
          exact Bool.noConfusion h
        · exact h
      rw [hs1none h1]
      obtain ⟨i, hne⟩ := (hasP2Shape_iff url.data).mp h2
      have hsne : searchP2 url.data ≠ none := by
        unfold searchP2
        rw [Ne, searchFrom_eq_none_iff]
        intro hall
        exact hne (hall i)
      obtain ⟨t, ht⟩ := Option.ne_none_iff_exists'.mp hsne
      rw [ht]
      exact ⟨t, rfl, Or.inr (searchP2_some_token url.data t ht)⟩
  · intro h1 h2 hbare
    unfold extract_video_id
    rw [hs1none h1, hs2none h2]
    rw [if_pos (by rw [bareMatch_eq_specBare]; exact hbare)]
  · intro h1 h2 hbare
    unfold extract_video_id
    rw [hs1none h1, hs2none h2]
    rw [if_neg (by rw [bareMatch_eq_specBare, hbare]; exact Bool.noConfusion)]

/-- C1 counterexample: the twelve-character string of eleven `A`s followed
by a newline contains no URL shape and is not a bare 11-character
identifier, so the claim requires "not found"; but the anchored check's
`$` matches before the trailing newline, so `extract_video_id` returns the
whole twelve-character string (newline included). -/
theorem extract_trailing_newline_counterexample :
    extract_video_id "AAAAAAAAAAA\n" = some "AAAAAAAAAAA\n"
    ∧ hasP1Shape "AAAAAAAAAAA\n".data = false
    ∧ hasP2Shape "AAAAAAAAAAA\n".data = false
    ∧ ¬("AAAAAAAAAAA\n".data.length = 11 ∧ "AAAAAAAAAAA\n".data.all idChar = true)
    ∧ "AAAAAAAAAAA\n" ≠ "AAAAAAAAAAA" := by
  refine ⟨by decide, by decide, by decide, by decide, by decide⟩

/-- C1 witness: a shortened url yields a token after a marker, and a
shapeless, non-bare string yields no identifier. -/
theorem extract_video_id_characterization_witness :
    (∃ t, extract_video_id "https://youtu.be/dQw4w9WgXcQ" = some (String.mk t) ∧
      (tokenAfterMarker "https://youtu.be/dQw4w9WgXcQ".data t
        ∨ tokenAfterVParam "https://youtu.be/dQw4w9WgXcQ".data t))
    ∧ extract_video_id "not-a-url" = none :=
  ⟨(extract_video_id_characterization "https://youtu.be/dQw4w9WgXcQ").1 (Or.inl (by decide)),
    (extract_video_id_characterization "not-a-url").2.2 (by decide) (by decide) (by decide)⟩
